import Mathlib

/-!
Verification development for the pdd repository.

Shallow embeddings of:
- `context_viz.py` (grid/bar/percentage rendering),
- `pdd/context_sampler.py` (`ContextStore` rotation and retention),
- the agentic change orchestrator (modelled from the specification, as the
  orchestrator module itself is not part of the source tree; its behaviour is
  pinned down by `spec.md` and the unit tests in
  `tests/test_agentic_change_orchestrator.py`),
- the context-substitution (`str.format`-style) engine used by the
  orchestrator's context builder.

Machine integers do not occur (Python ints are unbounded); costs are embedded
as rationals; filesystem state is embedded as explicit lists.
-/

/-! ## Embedding of `context_viz.py` -/

/-- Grid symbol `SYM_EMPTY` from `context_viz.py`. -/
def SYM_EMPTY : String := "⛶"

/-- Grid symbol `SYM_FILLED` from `context_viz.py`. -/
def SYM_FILLED : String := "⛁"

/-- Python's `round()`: round half to even, on rationals. -/
def roundHalfEven (q : ℚ) : ℤ :=
  let f := ⌊q⌋
  let frac := q - (f : ℚ)
  if frac < 1/2 then f
  else if (1:ℚ)/2 < frac then f + 1
  else if Even f then f else f + 1

/-- Function `format_pct(chars, total)` from `context_viz.py`:
returns "0%" when `total == 0`, otherwise the rounded percentage. -/
def format_pct (chars total : ℕ) : String :=
  if total = 0 then "0%"
  else toString (roundHalfEven ((chars : ℚ) / (total : ℚ) * 100)) ++ "%"

/-- Function `render_bar(chars, total, width)` from `context_viz.py`:
returns "" when `total == 0`, otherwise a bar of `filled` full blocks
(`int()` truncation) padded with light blocks up to `width`. -/
def render_bar (chars total : ℕ) (width : ℕ := 30) : String :=
  if total = 0 then ""
  else
    let filled := (⌊(chars : ℚ) / (total : ℚ) * (width : ℚ)⌋).toNat
    String.mk (List.replicate filled '█') ++ String.mk (List.replicate (width - filled) '░')

/-- The per-segment cell count of `render_grid`:
`round((chars / total) * grid_size) if total > 0 else 0`. -/
def segmentCount (chars total grid_size : ℕ) : ℕ :=
  if 0 < total then (roundHalfEven ((chars : ℚ) / (total : ℚ) * (grid_size : ℚ))).toNat else 0

/-- The `cells` list of `render_grid` before padding/trimming: each segment
contributes `segmentCount` copies of its symbol. -/
def rawCells (segments : List (String × ℕ)) (total grid_size : ℕ) : List String :=
  segments.flatMap (fun p => List.replicate (segmentCount p.2 total grid_size) p.1)

/-- The `cells` list of `render_grid` after the pad-while loop
(`while len(cells) < grid_size: cells.append(SYM_EMPTY)`) and the trim
(`cells = cells[:grid_size]`). -/
def gridCells (segments : List (String × ℕ)) (total grid_size : ℕ) : List String :=
  let raw := rawCells segments total grid_size
  (raw ++ List.replicate (grid_size - raw.length) SYM_EMPTY).take grid_size

/-- Function `render_grid(segments, total, grid_size)` from `context_viz.py`: the rows,
one string per `for i in range(0, grid_size, 10)` iteration, each joining
`cells[i:i+10]` with spaces. -/
def render_grid (segments : List (String × ℕ)) (total : ℕ) (grid_size : ℕ := 100) :
    List String :=
  (List.range' 0 ((grid_size + 9) / 10) 10).map
    (fun i => " ".intercalate (((gridCells segments total grid_size).drop i).take 10))

/-! ## Embedding of `ContextStore` (`pdd/context_sampler.py`) -/

namespace ContextStore

/-- Method `_get_existing_files`: the context files for the devunit, represented by
their integer sequence numbers, sorted ascending (Python's stable `sort` on
the extracted sequence number). -/
def get_existing_files (files : List ℕ) : List ℕ :=
  List.insertionSort (· ≤ ·) files

/-- Method `_get_next_sequence_number`: returns `1` when there are no existing files,
otherwise the sequence number of the last (highest) file plus one. -/
def get_next_sequence_number (existing : List ℕ) : ℕ :=
  match existing.getLast? with
  | none => 1
  | some n => n + 1

/-- Method `_rotate_files`: runs `while len(existing) >= limit: f =
existing.pop(0); try: f.unlink() except OSError: log`.  The head (lowest
sequence number) is popped from the in-memory list each round, but a file
whose `unlink` raises a caught `OSError` stays on disk.  `unlinkOk f` is the
outcome of unlinking file `f`.  Returns (the remaining in-memory list, the
popped files still on disk because their unlink failed).  (For `limit ≥ 1`
the loop body only runs on nonempty lists, which the conjunct in the guard
makes explicit.) -/
def rotate_files (unlinkOk : ℕ → Bool) (limit : ℕ) (existing : List ℕ) :
    List ℕ × List ℕ :=
  if h : limit ≤ existing.length ∧ existing ≠ [] then
    let p := rotate_files unlinkOk limit existing.tail
    (p.1, (if unlinkOk (existing.head h.2) then [] else [existing.head h.2]) ++ p.2)
  else (existing, [])
termination_by existing.length
decreasing_by
  have := List.length_pos.mpr h.2
  simp only [List.length_tail]
  omega

/-- Method `ContextStore.save`: list existing files, compute the next sequence
number, rotate old files out (unlink failures are caught and logged, so such
files stay on disk), then write the new file; the write's success does not
depend on the unlink outcomes.  Returns the sequence number written and the
sequence numbers on disk afterwards: the popped-but-not-unlinked files, the
untouched files, and the new file. -/
def save (unlinkOk : ℕ → Bool) (retention_limit : ℕ) (files : List ℕ) :
    ℕ × List ℕ :=
  let existing := get_existing_files files
  let next_seq := get_next_sequence_number existing
  let rot := rotate_files unlinkOk retention_limit existing
  (next_seq, rot.2 ++ rot.1 ++ [next_seq])

end ContextStore

/-! ## Embedding of the Context Builder's substitution engine

Modelled from the spec: the orchestrator module (not part of the source tree)
performs context substitution with Python's `str.format(**context)` semantics:
a single left-to-right pass over the template; `{name}` is replaced by the
context value for `name` (inserted as an opaque literal, never re-scanned);
`{{`/`}}` are brace escapes; a placeholder naming an unsupplied key is a
missing-key failure; a dangling brace is a format failure. -/

/-- Outcome of a failed substitution. -/
inductive FmtError where
  | missingKey (name : String)
  | badFormat
deriving DecidableEq, Repr

mutual

/-- One pass over the template text.  Values substituted for placeholders are
inserted verbatim and never re-scanned (single-pass substitution). -/
def substAux (ctx : List (String × String)) (cs : List Char) :
    Except FmtError (List Char) :=
  match cs with
  | [] => .ok []
  | c :: rest =>
    if c = '{' then
      if rest.head? = some '{' then (substAux ctx rest.tail).map (fun s => '{' :: s)
      else substName ctx [] rest
    else if c = '}' then
      if rest.head? = some '}' then (substAux ctx rest.tail).map (fun s => '}' :: s)
      else .error .badFormat
    else (substAux ctx rest).map (fun s => c :: s)
termination_by cs.length
decreasing_by
  · simp only [List.length_tail, List.length_cons]; omega
  · simp only [List.length_cons]; omega
  · simp only [List.length_tail, List.length_cons]; omega
  · simp only [List.length_cons]; omega

/-- Scan a placeholder name up to the closing `}`, then substitute its value. -/
def substName (ctx : List (String × String)) (acc : List Char) (cs : List Char) :
    Except FmtError (List Char) :=
  match cs with
  | [] => .error .badFormat
  | c :: rest =>
    if c = '}' then
      match List.lookup (String.mk acc) ctx with
      | none => .error (.missingKey (String.mk acc))
      | some v => (substAux ctx rest).map (fun s => v.data ++ s)
    else if c = '{' then .error .badFormat
    else substName ctx (acc ++ [c]) rest
termination_by cs.length

end

mutual

/-- The placeholder names referenced by a template (scanned with the same
pass structure as `substAux`). -/
def refsAux : List Char → List String
  | [] => []
  | c :: rest =>
    if c = '{' then
      if rest.head? = some '{' then refsAux rest.tail else refsName [] rest
    else if c = '}' then
      if rest.head? = some '}' then refsAux rest.tail else []
    else refsAux rest
termination_by cs => cs.length
decreasing_by
  · simp only [List.length_tail, List.length_cons]; omega
  · simp only [List.length_cons]; omega
  · simp only [List.length_tail, List.length_cons]; omega
  · simp only [List.length_cons]; omega

/-- Name-scanning companion of `refsAux`. -/
def refsName (acc : List Char) : List Char → List String
  | [] => []
  | c :: rest =>
    if c = '}' then String.mk acc :: refsAux rest
    else if c = '{' then []
    else refsName (acc ++ [c]) rest
termination_by cs => cs.length

end

/-- Template text with no brace characters (substituted through unchanged). -/
def braceFree (cs : List Char) : Bool :=
  cs.all (fun c => c ≠ '{' && c ≠ '}')

/-- Substitute a context into a template (Python `template.format(**context)`). -/
def subst (template : String) (ctx : List (String × String)) : Except FmtError String :=
  (substAux ctx template.data).map String.mk

/-- The referenced names of a template, at `String` level. -/
def templateRefs (template : String) : List String :=
  refsAux template.data

mutual

/-- Well-formedness of template text under the scanning pass of `substAux`:
`true` exactly when the pass can never hit a dangling-brace format failure. -/
def wfAux : List Char → Bool
  | [] => true
  | c :: rest =>
    if c = '{' then
      if rest.head? = some '{' then wfAux rest.tail else wfName rest
    else if c = '}' then
      if rest.head? = some '}' then wfAux rest.tail else false
    else wfAux rest
termination_by cs => cs.length
decreasing_by
  · simp only [List.length_tail, List.length_cons]; omega
  · simp only [List.length_cons]; omega
  · simp only [List.length_tail, List.length_cons]; omega
  · simp only [List.length_cons]; omega

/-- Name-scanning companion of `wfAux`. -/
def wfName : List Char → Bool
  | [] => false
  | c :: rest =>
    if c = '}' then wfAux rest
    else if c = '{' then false
    else wfName rest
termination_by cs => cs.length

end

/-- Well-formed template, at `String` level. -/
def wfTemplate (template : String) : Bool :=
  wfAux template.data

/-- Modelled from the spec: the orchestrator wraps a failed substitution for
step `n` into the step-scoped error "Context missing key for step N: name". -/
def buildStepPrompt (n : ℕ) (template : String) (ctx : List (String × String)) :
    Except String String :=
  match subst template ctx with
  | .ok s => .ok s
  | .error (.missingKey name) =>
    .error ("Context missing key for step " ++ toString n ++ ": " ++ name)
  | .error .badFormat => .error ("Invalid template for step " ++ toString n)

/-! ## Embedding of the agentic change orchestrator

Modelled from the spec: `pdd/agentic_change_orchestrator.py` is not part of
the source tree (only its tests are).  The definitions below follow spec.md
§3, §4.1, §4.2, §6 and §7, with the behaviour pinned down by
`tests/test_agentic_change_orchestrator.py` (step labels, marker phrases,
messages, checkpoint contents, iteration counts). -/

/-- A step label: `stepN` for single-run steps, `stepN_iterK` for
review-loop steps. -/
inductive Label where
  | step (n : ℕ)
  | iter (n : ℕ) (k : ℕ)
deriving DecidableEq, Repr

/-- The string form of a label. -/
def Label.render : Label → String
  | .step n => "step" ++ toString n
  | .iter n k => "step" ++ toString n ++ "_iter" ++ toString k

/-- Record `StepResult`: outcome of one Step Executor invocation
`(success, output, cost, model)`. -/
structure StepResult where
  success : Bool
  output : String
  cost : ℚ
  model : String
deriving DecidableEq, Repr

/-- Record `WorkflowState`: the resumable checkpoint for one issue. -/
structure WorkflowState where
  issue_number : ℕ
  last_completed_step : ℕ
  step_outputs : List (String × String)
  total_cost : ℚ
  model_used : String
deriving DecidableEq, Repr

/-- One recorded Step Executor call: label, supplied context, result. -/
structure Call where
  label : Label
  ctx : List (String × String)
  result : StepResult
deriving DecidableEq, Repr

/-- The orchestrator's environment: the Step Executor (the mocks of the test
suite key results by label), the worktree-creation outcome, the loaded
checkpoint, and the issue metadata. -/
structure Env where
  exec : Label → StepResult
  worktree_ok : Bool
  checkpoint : Option WorkflowState
  issue_number : ℕ
  issue_url : String
  issue_content : String
  issue_title : String
  issue_author : String

/-- The orchestrator's running state: in-memory workflow state, the last
persisted checkpoint (`none` = no file on disk), the ordered save history,
and the executed-call log. -/
structure Trace where
  st : WorkflowState
  persisted : Option WorkflowState
  saved : List WorkflowState
  calls : List Call

/-- Final result: `(success, message, total_cost, model_used,
modified_files)` plus the persisted checkpoint and the run's observable
history (saved checkpoints, executed calls). -/
structure OrchResult where
  success : Bool
  message : String
  total_cost : ℚ
  model_used : String
  modified_files : List String
  persisted : Option WorkflowState
  saved : List WorkflowState
  calls : List Call

/-- Contiguous-substring test (marker detection is substring matching). -/
def hasSub (pat s : List Char) : Bool :=
  match s with
  | [] => pat.isEmpty
  | _ :: rest => pat.isPrefixOf s || hasSub pat rest

/-- Marker containment in a step's raw output (case-sensitive substring). -/
def containsMarker (out marker : String) : Bool :=
  hasSub marker.data out.data

/-- The suffix of `s` following the first occurrence of `pat`, if any. -/
def afterSub (pat s : List Char) : Option (List Char) :=
  match s with
  | [] => if pat.isEmpty then some [] else none
  | _ :: rest => if pat.isPrefixOf s then some (s.drop pat.length) else afterSub pat rest

/-- The `FILES_MODIFIED:` file-list marker (spec §6). -/
def filesModifiedMarker : String := "FILES_MODIFIED:"

/-- The `FILES_CREATED:` file-list marker (spec §6). -/
def filesCreatedMarker : String := "FILES_CREATED:"

/-- Step 9's postcondition: the output contains a recognizable file-list
marker. -/
def hasFileMarker (out : String) : Bool :=
  containsMarker out filesModifiedMarker || containsMarker out filesCreatedMarker

/-- Parse the comma-separated file list following the first file-list
marker, up to the end of that line. -/
def parseFileList (out : String) : List String :=
  let tail := match afterSub filesModifiedMarker.data out.data with
    | some rest => some rest
    | none => afterSub filesCreatedMarker.data out.data
  match tail with
  | none => []
  | some rest =>
    (((String.mk (rest.takeWhile (fun c => c ≠ '\n'))).splitOn ",").map
      (fun s => s.trim)).filter (fun s => s ≠ "")

/-- The duplicate-issue hard-stop marker of step 1. -/
def duplicateMarker : String := "Duplicate of #"

/-- The architectural-decision hard-stop marker of step 7. -/
def architecturalMarker : String := "Architectural Decision Needed"

/-- The hard-stop gate applied after a designated step (steps 1 and 7):
the human-readable stop reason when the output carries the stop marker. -/
def gateCheck (n : ℕ) (out : String) : Option String :=
  if n = 1 && containsMarker out duplicateMarker then
    some "Issue is a duplicate"
  else if n = 7 && containsMarker out architecturalMarker then
    some "Architectural decision needed"
  else none

/-- The context mapping built for a step: issue metadata plus every stored
prior step output under the name `step<key>_output`. -/
def buildContext (env : Env) (st : WorkflowState) : List (String × String) :=
  [("issue_url", env.issue_url), ("issue_content", env.issue_content),
    ("issue_title", env.issue_title), ("issue_author", env.issue_author)] ++
    st.step_outputs.map (fun p => ("step" ++ p.1 ++ "_output", p.2))

/-- Invoke the Step Executor once: record the call (label, context, result),
add the reported cost to the accumulated total — also for failed steps — and
remember the model used. -/
def doCall (env : Env) (tr : Trace) (lab : Label) : Trace × StepResult :=
  let r := env.exec lab
  ({ tr with
      st := { tr.st with total_cost := tr.st.total_cost + r.cost, model_used := r.model },
      calls := tr.calls ++ [{ label := lab, ctx := buildContext env tr.st, result := r }] },
    r)

/-- Merge a step's output into the in-memory state (append-only). -/
def recordOutput (tr : Trace) (key out : String) : Trace :=
  { tr with st := { tr.st with step_outputs := tr.st.step_outputs ++ [(key, out)] } }

/-- Mark step `n` as the last completed step. -/
def completeStep (tr : Trace) (n : ℕ) : Trace :=
  { tr with st := { tr.st with last_completed_step := n } }

/-- Persist the current in-memory state as the checkpoint. -/
def saveState (tr : Trace) : Trace :=
  { tr with persisted := some tr.st, saved := tr.saved ++ [tr.st] }

/-- The `modified_files` result: scan the stored step 9 output for the
file-list marker, on every outcome path. -/
def extractFiles (st : WorkflowState) : List String :=
  parseFileList ((List.lookup "9" st.step_outputs).getD "")

/-- Assemble the returned tuple from the current trace. -/
def mkResult (success : Bool) (msg : String) (tr : Trace) : OrchResult :=
  { success := success, message := msg, total_cost := tr.st.total_cost,
    model_used := tr.st.model_used, modified_files := extractFiles tr.st,
    persisted := tr.persisted, saved := tr.saved, calls := tr.calls }

/-- Run one of steps 1–8: skip it when the loaded checkpoint already covers
it (reusing the stored output); otherwise execute it, and on success merge
the output, advance `last_completed_step`, persist the checkpoint, and apply
the hard-stop gate; an executor failure is a terminal workflow failure. -/
def runStep (env : Env) (n : ℕ) (tr : Trace) : Except OrchResult Trace :=
  if n ≤ tr.st.last_completed_step then .ok tr
  else
    let p := doCall env tr (.step n)
    if p.2.success then
      let tr2 := saveState (completeStep (recordOutput p.1 (toString n) p.2.output) n)
      match gateCheck n p.2.output with
      | some reason =>
        .error (mkResult false ("Stopped at step " ++ toString n ++ ": " ++ reason) tr2)
      | none => .ok tr2
    else .error (mkResult false ("Step " ++ toString n ++ " failed") p.1)

/-- Sequence two halting stages. -/
def stepSeq (f g : Trace → Except OrchResult Trace) (tr : Trace) :
    Except OrchResult Trace :=
  match f tr with
  | .error r => .error r
  | .ok tr' => g tr'

/-- Steps 1 through 8 in order. -/
def runSteps18 (env : Env) : Trace → Except OrchResult Trace :=
  stepSeq (runStep env 1) (stepSeq (runStep env 2) (stepSeq (runStep env 3)
    (stepSeq (runStep env 4) (stepSeq (runStep env 5) (stepSeq (runStep env 6)
      (stepSeq (runStep env 7) (runStep env 8)))))))

/-- Step 9 ("implement") and its file-list postcondition: when the marker is
missing the run stops, still persisting a checkpoint that reflects every step
that did succeed (never a stale lower value). -/
def runStep9 (env : Env) (tr : Trace) : Except OrchResult Trace :=
  if 9 ≤ tr.st.last_completed_step then .ok tr
  else
    let p := doCall env tr (.step 9)
    if p.2.success then
      if hasFileMarker p.2.output then
        .ok (saveState (completeStep (recordOutput p.1 "9" p.2.output) 9))
      else
        .error (mkResult false "Stopped at step 9: no file changes were detected"
          (saveState p.1))
    else .error (mkResult false "Step 9 failed" p.1)

/-- The no-issues marker of the identify-issues step. -/
def noIssuesMarker : String := "No Issues Found"

/-- Whether an identify-issues output reports issues. -/
def issuesFound (out : String) : Bool := !(containsMarker out noIssuesMarker)

/-- Constant `MAX_REVIEW_ITERATIONS`. -/
def maxReviewIterations : ℕ := 5

/-- The Review Convergence Loop (steps 10/11): run `step10_iterI`; if no
issues are reported the loop converges; otherwise run `step11_iterI` and
re-review, until the iteration cap is exhausted.  Loop outputs are folded
into the state under iteration-qualified keys and checkpointed; executor
failures inside the loop count toward the cap rather than crashing it. -/
def reviewLoop (env : Env) (tr : Trace) (i : ℕ) : ℕ → Trace
  | 0 => tr
  | fuel + 1 =>
    let p := doCall env tr (.iter 10 i)
    let tr2 := saveState (recordOutput p.1 ("10_iter" ++ toString i) p.2.output)
    if issuesFound p.2.output then
      let q := doCall env tr2 (.iter 11 i)
      let tr4 := saveState (recordOutput q.1 ("11_iter" ++ toString i) q.2.output)
      reviewLoop env tr4 (i + 1) fuel
    else tr2

/-- Scan an output for a pull-request URL: an `https://` occurrence running
to the next whitespace and containing `/pull/`. -/
def extractPRAux : List Char → Option String
  | [] => none
  | c :: rest =>
    if List.isPrefixOf "https://".data (c :: rest) then
      let url := (c :: rest).takeWhile (fun ch => !ch.isWhitespace)
      if hasSub "/pull/".data url then some (String.mk url) else extractPRAux rest
    else extractPRAux rest

/-- PR-reference extraction from step 12's output (best effort). -/
def extractPR (out : String) : Option String := extractPRAux out.data

/-- Step 12 ("create PR"): on success the checkpoint is cleared entirely and
the scanned PR reference is propagated into the final success message. -/
def runStep12 (env : Env) (tr : Trace) : OrchResult :=
  let p := doCall env tr (.step 12)
  if p.2.success then
    let tr2 := { recordOutput p.1 "12" p.2.output with persisted := none }
    let msg := match extractPR p.2.output with
      | some url => "Workflow completed successfully. PR: " ++ url
      | none => "Workflow completed successfully. " ++ p.2.output
    mkResult true msg tr2
  else mkResult false "Step 12 failed" p.1

/-- Everything after the gate steps: worktree creation (required before step
9 begins), step 9, the review loop, step 12. -/
def afterSteps18 (env : Env) (tr : Trace) : OrchResult :=
  if env.worktree_ok then
    match runStep9 env tr with
    | .error r => r
    | .ok tr2 => runStep12 env (reviewLoop env tr2 1 maxReviewIterations)
  else mkResult false "Failed to create worktree" tr

/-- The fresh workflow state of an issue with no checkpoint. -/
def initState (issue_number : ℕ) : WorkflowState :=
  { issue_number := issue_number, last_completed_step := 0, step_outputs := [],
    total_cost := 0, model_used := "" }

/-- The initial trace: loaded checkpoint (or fresh state), nothing executed. -/
def initTrace (env : Env) : Trace :=
  { st := env.checkpoint.getD (initState env.issue_number),
    persisted := env.checkpoint, saved := [], calls := [] }

/-- Function `run_agentic_change_orchestrator`: steps 1–8 with resume and hard stops,
then worktree creation, step 9 with its postcondition, the review
convergence loop, and step 12. -/
def run_agentic_change_orchestrator (env : Env) : OrchResult :=
  match runSteps18 env (initTrace env) with
  | .error r => r
  | .ok tr => afterSteps18 env tr

/-- The cost recovered from the loaded checkpoint (0 when none). -/
def recoveredCost (env : Env) : ℚ :=
  match env.checkpoint with
  | some st => st.total_cost
  | none => 0

/-- Total reported cost of a list of executed calls. -/
def sumCosts (calls : List Call) : ℚ :=
  (calls.map (fun c => c.result.cost)).sum

/-- The review-loop state machine of `test_z3_review_loop_termination`:
state `(iteration, terminated)`; `outcomes k` is the issues-found outcome of
the identify step taken from iteration count `k`. -/
structure LoopState where
  iteration : ℕ
  terminated : Bool
deriving DecidableEq, Repr

/-- One transition: a non-terminated state increments the iteration and
terminates when no issues were found or the cap is reached; terminated
states are absorbing. -/
def loopStep (outcomes : ℕ → Bool) (s : LoopState) : LoopState :=
  if s.terminated then s
  else
    { iteration := s.iteration + 1,
      terminated := !(outcomes s.iteration) || decide (maxReviewIterations ≤ s.iteration + 1) }

/-- The reachable states: `k` transitions from `(0, false)`. -/
def loopRun (outcomes : ℕ → Bool) : ℕ → LoopState
  | 0 => { iteration := 0, terminated := false }
  | k + 1 => loopStep outcomes (loopRun outcomes k)

/-- A stage preserves trace predicate `P`, establishing result predicate `Q`
when it halts the run. -/
def StagePres (P : Trace → Prop) (Q : OrchResult → Prop)
    (f : Trace → Except OrchResult Trace) : Prop :=
  ∀ tr, P tr →
    match f tr with
    | .error r => Q r
    | .ok tr' => P tr'

/-- Relation: `sub` occurs as a contiguous substring of `s`. -/
def SubStr (sub s : String) : Prop :=
  ∃ x y, s.data = x ++ sub.data ++ y

/-- An identify-issues (`step10_iterK`) call. -/
def isIdentifyCall (c : Call) : Bool :=
  match c.label with
  | .iter 10 _ => true
  | _ => false

/-- A fix-issues (`step11_iterK`) call. -/
def isFixCall (c : Call) : Bool :=
  match c.label with
  | .iter 11 _ => true
  | _ => false

/-- A nondecreasing sequence of naturals. -/
def nondecreasing (l : List ℕ) : Prop :=
  List.Chain' (· ≤ ·) l

/-- Step executor of the C2 witness scenario: steps succeed, step 9's output
lacks any file-list marker. -/
def execC2 : Label → StepResult := fun lab =>
  match lab with
  | .step 9 => ⟨true, "I did the work but no FILES markers", 1/10, "gpt-4"⟩
  | _ => ⟨true, "Output", 1/10, "gpt-4"⟩

/-- Witness environment: resume from a checkpoint at step 5 (the scenario of
`test_orchestrator_step9_failure_preserves_completed_steps`). -/
def envC2 : Env :=
  { exec := execC2, worktree_ok := true,
    checkpoint := some ⟨99, 5, [("1", "o1"), ("2", "o2"), ("3", "o3"), ("4", "o4"), ("5", "o5")],
      1/2, "gpt-4"⟩,
    issue_number := 99, issue_url := "http://url", issue_content := "content",
    issue_title := "State Bug", issue_author := "me" }

/-- Witness environment for the step-1 hard stop: every step reports a
duplicate (`test_orchestrator_hard_stop_early`). -/
def envC3a : Env :=
  { exec := fun _ => ⟨true, "This is a Duplicate of #42", 1/10, "gpt-4"⟩,
    worktree_ok := true, checkpoint := none, issue_number := 2,
    issue_url := "http://url", issue_content := "Fix bug",
    issue_title := "Duplicate", issue_author := "me" }

/-- Step executor of the step-7 hard-stop witness
(`test_step7_stop_with_stop_condition_marker`). -/
def execC3b : Label → StepResult := fun lab =>
  match lab with
  | .step 7 => ⟨true, "Posted to GitHub.\nArchitectural Decision Needed", 1/10, "gpt-4"⟩
  | _ => ⟨true, "Output", 1/10, "gpt-4"⟩

/-- Witness environment for the step-7 hard stop: a fresh run whose steps 1–6
succeed without markers and whose step 7 raises the architectural marker. -/
def envC3b : Env :=
  { exec := execC3b, worktree_ok := true, checkpoint := none,
    issue_number := 777, issue_url := "http://url", issue_content := "Feature request",
    issue_title := "Feature", issue_author := "user" }

/-- Witness environment for the worktree-failure scenario
(`test_orchestrator_worktree_failure`): a fresh run whose steps all succeed
but whose worktree creation fails. -/
def envC7 : Env :=
  { exec := fun _ => ⟨true, "ok", 1/10, "gpt-4"⟩,
    worktree_ok := false, checkpoint := none,
    issue_number := 4, issue_url := "http://url", issue_content := "content",
    issue_title := "Worktree Fail", issue_author := "me" }

/-- Counterexample environment: a checkpoint already at
`last_completed_step = 8` combined with failing worktree creation — the run
resumes past the numbered steps but stops before any step-9 call. -/
def envC4cx : Env :=
  { exec := fun _ => ⟨true, "ok", 1/10, "gpt-4"⟩,
    worktree_ok := false,
    checkpoint := some ⟨4, 8, [("1", "o1")], 1, "gpt-4"⟩,
    issue_number := 4, issue_url := "http://url", issue_content := "content",
    issue_title := "Worktree Fail", issue_author := "me" }

/-- Step executor of the C8 witness (the happy path of
`test_orchestrator_happy_path`). -/
def execC8 : Label → StepResult := fun lab =>
  match lab with
  | .step 9 => ⟨true, "Implementation done. FILES_MODIFIED: file_a.py, file_b.py", 1/2, "gpt-4"⟩
  | .step 12 => ⟨true, "PR Created: https://github.com/owner/repo/pull/123", 1/5, "gpt-4"⟩
  | .iter 10 _ => ⟨true, "No Issues Found", 1/10, "gpt-4"⟩
  | _ => ⟨true, "Output", 1/10, "gpt-4"⟩

/-- Witness environment for the full happy path. -/
def envC8 : Env :=
  { exec := execC8, worktree_ok := true, checkpoint := none, issue_number := 1,
    issue_url := "http://url", issue_content := "Fix bug",
    issue_title := "Bug fix", issue_author := "me" }

/-- Predicate: `l` is among the labels of the executed calls. -/
def CalledLabel (l : Label) (calls : List Call) : Prop :=
  l ∈ calls.map Call.label

/-- Step executor of the C4 witness (`test_orchestrator_resume_from_state`). -/
def execC4 : Label → StepResult := fun lab =>
  match lab with
  | .step 9 => ⟨true, "FILES_CREATED: new.py", 1/2, "gpt-4"⟩
  | .step 12 => ⟨true, "PR Created", 1/10, "gpt-4"⟩
  | .iter 10 _ => ⟨true, "No Issues Found", 1/10, "gpt-4"⟩
  | _ => ⟨true, "ok", 1/10, "gpt-4"⟩

/-- Witness environment: resume from a checkpoint at step 4 with stored
outputs for steps 1–4. -/
def envC4 : Env :=
  { exec := execC4, worktree_ok := true,
    checkpoint := some ⟨3, 4, [("1", "out1"), ("2", "out2"), ("3", "out3"), ("4", "out4")],
      1, "gpt-3.5"⟩,
    issue_number := 3, issue_url := "http://url", issue_content := "content",
    issue_title := "Resume", issue_author := "me" }

/-! ## Theorems -/

theorem rawCells_total_zero (segments : List (String × ℕ)) (gs : ℕ) :
    rawCells segments 0 gs = [] := by
  induction segments with
  | nil => rfl
  | cons p t ih => simp [rawCells, segmentCount] at ih ⊢

theorem gridCells_length (segments : List (String × ℕ)) (total : ℕ) :
    (gridCells segments total 100).length = 100 := by
  simp only [gridCells, List.length_take, List.length_append, List.length_replicate]
  omega

theorem chunkSum_of_length_100 (l : List String) (h : l.length = 100) :
    ((List.range' 0 10 10).map (fun i => ((l.drop i).take 10).length)).sum = 100 := by
  have : List.range' 0 10 10 = [0, 10, 20, 30, 40, 50, 60, 70, 80, 90] := rfl
  simp [this, List.length_take, List.length_drop, h]

/-- C10: for every list of `(symbol, char_count)` segments and every total,
`render_grid` with `grid_size = 100` returns exactly 10 rows covering exactly
100 symbol cells (the 10 chunks of 10 of `gridCells`), the cell list pads the
tail with `SYM_EMPTY` and trims any excess to 100, a zero total produces no
raw segment cells (the `total > 0` guard, so no division by zero), and
`format_pct`/`render_bar` return `"0%"`/`""` when the total is 0. -/
theorem render_grid_safety (segments : List (String × ℕ)) (total : ℕ)
    (chars width : ℕ) :
    (render_grid segments total 100).length = 10 ∧
    (gridCells segments total 100).length = 100 ∧
    ((List.range' 0 10 10).map
      (fun i => (((gridCells segments total 100).drop i).take 10).length)).sum = 100 ∧
    gridCells segments total 100 =
      (rawCells segments total 100 ++
        List.replicate (100 - (rawCells segments total 100).length) SYM_EMPTY).take 100 ∧
    rawCells segments 0 100 = [] ∧
    gridCells segments 0 100 = List.replicate 100 SYM_EMPTY ∧
    format_pct chars 0 = "0%" ∧
    render_bar chars 0 width = "" := by
  refine ⟨?_, gridCells_length segments total,
    chunkSum_of_length_100 _ (gridCells_length segments total), rfl,
    rawCells_total_zero segments 100, ?_, rfl, rfl⟩
  · simp [render_grid]
  · simp [gridCells, rawCells_total_zero]

theorem rotate_files_length (unlinkOk : ℕ → Bool) (limit : ℕ) (hl : 1 ≤ limit)
    (l : List ℕ) : (ContextStore.rotate_files unlinkOk limit l).1.length < limit := by
  induction l with
  | nil =>
    rw [ContextStore.rotate_files]
    simp only [ne_eq, not_true_eq_false, and_false, dite_false]
    simpa using hl
  | cons a t ih =>
    rw [ContextStore.rotate_files]
    split
    · simpa using ih
    · rename_i h
      simp only [ne_eq, reduceCtorEq, not_false_eq_true, and_true, not_le] at h
      simpa using h

theorem rotate_files_drops (unlinkOk : ℕ → Bool) (limit : ℕ) (l : List ℕ) :
    ∃ dropped, dropped ++ (ContextStore.rotate_files unlinkOk limit l).1 = l := by
  induction l with
  | nil => exact ⟨[], by rw [ContextStore.rotate_files]; simp⟩
  | cons a t ih =>
    rw [ContextStore.rotate_files]
    split
    · rcases ih with ⟨d, hd⟩
      exact ⟨a :: d, by simpa using hd⟩
    · exact ⟨[], rfl⟩

theorem rotate_files_all_ok (unlinkOk : ℕ → Bool) (hok : ∀ f, unlinkOk f = true)
    (limit : ℕ) (l : List ℕ) :
    (ContextStore.rotate_files unlinkOk limit l).2 = [] := by
  induction l with
  | nil =>
    rw [ContextStore.rotate_files]
    simp
  | cons a t ih =>
    rw [ContextStore.rotate_files]
    split
    · simpa [hok] using ih
    · rfl

theorem sorted_mem_le_getLast {l : List ℕ} {x y : ℕ}
    (h : List.Sorted (· ≤ ·) l) (hlast : l.getLast? = some y) (hx : x ∈ l) :
    x ≤ y := by
  induction l with
  | nil => simp at hlast
  | cons a t ih =>
    cases t with
    | nil =>
      simp at hlast hx
      omega
    | cons b t' =>
      rw [List.getLast?_cons_cons] at hlast
      rw [List.sorted_cons] at h
      rcases List.mem_cons.mp hx with rfl | h'
      · have hy : y ∈ b :: t' := by
          have hne : (b :: t') ≠ [] := by simp
          rw [List.getLast?_eq_getLast _ hne] at hlast
          have := List.getLast_mem hne
          rwa [Option.some_inj.mp hlast] at this
        exact h.1 y hy
      · exact ih h.2 hlast h'

/-- C9 (amended): unlink failures are caught and only logged in the source, so a
file whose deletion fails stays on disk while `save` still succeeds; the at-most-L
bound therefore holds only when every attempted unlink succeeds.  Under that
hypothesis, for every retention limit `L ≥ 1` and every set of existing parseable
context files (by sequence number), `ContextStore.save` leaves at most `L` files,
the newly written sequence number is strictly greater than every pre-existing
one, and the deleted files are an initial (lowest-numbered) segment of the
sorted file list — every deleted number is at most every kept number. -/
theorem contextStore_save_retention (unlinkOk : ℕ → Bool) (L : ℕ) (files : List ℕ)
    (hL : 1 ≤ L) (hok : ∀ f, unlinkOk f = true) :
    (ContextStore.save unlinkOk L files).2.length ≤ L ∧
    (∀ x ∈ files, x < (ContextStore.save unlinkOk L files).1) ∧
    ∃ dropped kept,
      dropped ++ kept = ContextStore.get_existing_files files ∧
      (ContextStore.save unlinkOk L files).2 =
        kept ++ [(ContextStore.save unlinkOk L files).1] ∧
      ∀ d ∈ dropped, ∀ k ∈ kept, d ≤ k := by
  have hnil := rotate_files_all_ok unlinkOk hok L (ContextStore.get_existing_files files)
  refine ⟨?_, ?_, ?_⟩
  · have h := rotate_files_length unlinkOk L hL (ContextStore.get_existing_files files)
    simp only [ContextStore.save, hnil, List.nil_append, List.length_append,
      List.length_cons, List.length_nil]
    omega
  · intro x hx
    have hmem : x ∈ ContextStore.get_existing_files files :=
      (List.mem_insertionSort _).mpr hx
    simp only [ContextStore.save, ContextStore.get_next_sequence_number]
    rcases hlast : (ContextStore.get_existing_files files).getLast? with _ | a
    · rw [List.getLast?_eq_none_iff] at hlast
      rw [hlast] at hmem
      simp at hmem
    · have := sorted_mem_le_getLast
        (List.sorted_insertionSort _ files) hlast hmem
      simp only [hlast]
      omega
  · rcases rotate_files_drops unlinkOk L (ContextStore.get_existing_files files)
      with ⟨d, hd⟩
    refine ⟨d,
      (ContextStore.rotate_files unlinkOk L (ContextStore.get_existing_files files)).1,
      hd, ?_, ?_⟩
    · simp only [ContextStore.save, hnil, List.nil_append]
    · have hs : List.Sorted (· ≤ ·) (d ++
          (ContextStore.rotate_files unlinkOk L
            (ContextStore.get_existing_files files)).1) := by
        rw [hd]; exact List.sorted_insertionSort _ files
      rw [List.Sorted, List.pairwise_append] at hs
      exact hs.2.2

/-- C9 witness: all unlinks succeed, limit 3, files `[4, 1, 3, 2]`.  Three files
remain, the lowest-numbered old files were dropped, and the new number 5 exceeds
all pre-existing ones. -/
theorem contextStore_save_retention_witness :
    (ContextStore.save (fun _ => true) 3 [4, 1, 3, 2]).2.length ≤ 3 ∧
    (∀ x ∈ [4, 1, 3, 2], x < (ContextStore.save (fun _ => true) 3 [4, 1, 3, 2]).1) ∧
    ∃ dropped kept,
      dropped ++ kept = ContextStore.get_existing_files [4, 1, 3, 2] ∧
      (ContextStore.save (fun _ => true) 3 [4, 1, 3, 2]).2 =
        kept ++ [(ContextStore.save (fun _ => true) 3 [4, 1, 3, 2]).1] ∧
      ∀ d ∈ dropped, ∀ k ∈ kept, d ≤ k :=
  contextStore_save_retention (fun _ => true) 3 [4, 1, 3, 2] (by decide) (fun _ => rfl)

/-- C9 counterexample: with retention limit 1 and one existing file whose unlink
fails (the source catches the `OSError` and proceeds), `save` still writes the
new file, leaving 2 files on disk — the claimed at-most-limit bound fails. -/
theorem contextStore_save_retention_counterexample :
    1 ≤ 1 ∧ ¬ ((ContextStore.save (fun _ => false) 1 [1]).2.length ≤ 1) := by
  refine ⟨le_refl 1, ?_⟩
  have h1 : ContextStore.rotate_files (fun _ => false) 1 [1] = ([], [1]) := by
    rw [ContextStore.rotate_files, ContextStore.rotate_files]
    simp
  simp [ContextStore.save, h1, ContextStore.get_existing_files,
    ContextStore.get_next_sequence_number]

theorem braceFree_cons {c : Char} {cs : List Char} (h : braceFree (c :: cs) = true) :
    c ≠ '{' ∧ c ≠ '}' ∧ braceFree cs = true := by
  simp [braceFree] at h ⊢
  exact ⟨h.1.1, h.1.2, h.2⟩

theorem substAux_braceFree (ctx : List (String × String)) (cs : List Char)
    (h : braceFree cs = true) : substAux ctx cs = .ok cs := by
  induction cs with
  | nil => rw [substAux]
  | cons c rest ih =>
    obtain ⟨h1, h2, h3⟩ := braceFree_cons h
    rw [substAux]
    simp only [if_neg h1, if_neg h2, ih h3, Except.map]

theorem substAux_append_braceFree (ctx : List (String × String))
    (pre rest : List Char) (h : braceFree pre = true) :
    substAux ctx (pre ++ rest) = (substAux ctx rest).map (fun s => pre ++ s) := by
  induction pre with
  | nil =>
    cases h' : substAux ctx rest <;> simp [Except.map, h']
  | cons c pre' ih =>
    obtain ⟨h1, h2, h3⟩ := braceFree_cons h
    rw [List.cons_append, substAux]
    simp only [if_neg h1, if_neg h2, ih h3]
    cases h' : substAux ctx rest <;> simp [Except.map]

theorem substName_scan (ctx : List (String × String)) (name : List Char)
    (hn : braceFree name = true) :
    ∀ (acc rest : List Char),
      substName ctx acc (name ++ '}' :: rest) =
        match List.lookup (String.mk (acc ++ name)) ctx with
        | none => .error (.missingKey (String.mk (acc ++ name)))
        | some v => (substAux ctx rest).map (fun s => v.data ++ s) := by
  induction name with
  | nil =>
    intro acc rest
    rw [List.nil_append, substName]
    simp
  | cons c name' ih =>
    obtain ⟨h1, h2, h3⟩ := braceFree_cons hn
    intro acc rest
    rw [List.cons_append, substName]
    simp only [if_neg h2, if_neg h1]
    rw [ih h3 (acc ++ [c]) rest]
    simp

theorem subst_missing_sound (ctx : List (String × String)) :
    ∀ (N : ℕ) (cs : List Char), cs.length ≤ N →
      (∀ name, substAux ctx cs = .error (.missingKey name) →
        name ∈ refsAux cs ∧ List.lookup name ctx = none) ∧
      (∀ acc name, substName ctx acc cs = .error (.missingKey name) →
        name ∈ refsName acc cs ∧ List.lookup name ctx = none) := by
  intro N
  induction N with
  | zero =>
    intro cs hlen
    have hnil : cs = [] := List.length_eq_zero.mp (Nat.le_zero.mp hlen)
    subst hnil
    constructor
    · intro name h
      rw [substAux] at h
      cases h
    · intro acc name h
      rw [substName] at h
      cases h
  | succ N ih =>
    intro cs hlen
    cases cs with
    | nil =>
      constructor
      · intro name h
        rw [substAux] at h
        cases h
      · intro acc name h
        rw [substName] at h
        cases h
    | cons c rest =>
      have hr : rest.length ≤ N := by
        simp only [List.length_cons] at hlen; omega
      have hrt : rest.tail.length ≤ N := by
        simp only [List.length_tail]; omega
      constructor
      · intro name h
        rw [substAux] at h
        rw [refsAux]
        by_cases hc : c = '{'
        · simp only [if_pos hc] at h ⊢
          by_cases hh : rest.head? = some '{'
          · simp only [if_pos hh] at h ⊢
            cases h2 : substAux ctx rest.tail with
            | error e =>
              rw [h2] at h
              simp only [Except.map] at h
              injection h with h
              subst h
              exact (ih rest.tail hrt).1 name h2
            | ok s => rw [h2] at h; simp [Except.map] at h
          · simp only [if_neg hh] at h ⊢
            exact (ih rest hr).2 [] name h
        · by_cases hc2 : c = '}'
          · simp only [if_neg hc, if_pos hc2] at h ⊢
            by_cases hh : rest.head? = some '}'
            · simp only [if_pos hh] at h ⊢
              cases h2 : substAux ctx rest.tail with
              | error e =>
                rw [h2] at h
                simp only [Except.map] at h
                injection h with h
                subst h
                exact (ih rest.tail hrt).1 name h2
              | ok s => rw [h2] at h; simp [Except.map] at h
            · simp only [if_neg hh] at h
              cases h
          · simp only [if_neg hc, if_neg hc2] at h ⊢
            cases h2 : substAux ctx rest with
            | error e =>
              rw [h2] at h
              simp only [Except.map] at h
              injection h with h
              subst h
              exact (ih rest hr).1 name h2
            | ok s => rw [h2] at h; simp [Except.map] at h
      · intro acc name h
        rw [substName] at h
        rw [refsName]
        by_cases hc : c = '}'
        · simp only [if_pos hc] at h ⊢
          cases hl : List.lookup (String.mk acc) ctx with
          | none =>
            rw [hl] at h
            injection h with h
            injection h with h
            subst h
            exact ⟨List.mem_cons_self _ _, hl⟩
          | some v =>
            rw [hl] at h
            cases h2 : substAux ctx rest with
            | error e =>
              rw [h2] at h
              simp only [Except.map] at h
              injection h with h
              subst h
              rcases (ih rest hr).1 name h2 with ⟨hm, hn⟩
              exact ⟨List.mem_cons_of_mem _ hm, hn⟩
            | ok s => rw [h2] at h; simp [Except.map] at h
        · by_cases hc2 : c = '{'
          · simp only [if_neg hc, if_pos hc2] at h
            cases h
          · simp only [if_neg hc, if_neg hc2] at h ⊢
            exact (ih rest hr).2 (acc ++ [c]) name h

theorem head_ne_open_brace {name : List Char} (hn : braceFree name = true) :
    name.head? ≠ some '{' := by
  cases name with
  | nil => simp
  | cons c cs =>
    obtain ⟨h1, _, _⟩ := braceFree_cons hn
    simp [h1]

theorem subst_ok_refs (ctx : List (String × String)) :
    ∀ (N : ℕ) (cs : List Char), cs.length ≤ N →
      (∀ s, substAux ctx cs = .ok s →
        ∀ nm ∈ refsAux cs, List.lookup nm ctx ≠ none) ∧
      (∀ acc s, substName ctx acc cs = .ok s →
        ∀ nm ∈ refsName acc cs, List.lookup nm ctx ≠ none) := by
  intro N
  induction N with
  | zero =>
    intro cs hlen
    have hnil : cs = [] := List.length_eq_zero.mp (Nat.le_zero.mp hlen)
    subst hnil
    constructor
    · intro s h nm hm
      rw [refsAux] at hm
      simp at hm
    · intro acc s h
      rw [substName] at h
      cases h
  | succ N ih =>
    intro cs hlen
    cases cs with
    | nil =>
      constructor
      · intro s h nm hm
        rw [refsAux] at hm
        simp at hm
      · intro acc s h
        rw [substName] at h
        cases h
    | cons c rest =>
      have hr : rest.length ≤ N := by
        simp only [List.length_cons] at hlen; omega
      have hrt : rest.tail.length ≤ N := by
        simp only [List.length_tail]; omega
      constructor
      · intro s h nm hm
        rw [substAux] at h
        rw [refsAux] at hm
        by_cases hc : c = '{'
        · simp only [if_pos hc] at h hm
          by_cases hh : rest.head? = some '{'
          · simp only [if_pos hh] at h hm
            cases h2 : substAux ctx rest.tail with
            | error e => rw [h2] at h; simp [Except.map] at h
            | ok s2 => exact (ih rest.tail hrt).1 s2 h2 nm hm
          · simp only [if_neg hh] at h hm
            exact (ih rest hr).2 [] s h nm hm
        · by_cases hc2 : c = '}'
          · simp only [if_neg hc, if_pos hc2] at h hm
            by_cases hh : rest.head? = some '}'
            · simp only [if_pos hh] at h hm
              cases h2 : substAux ctx rest.tail with
              | error e => rw [h2] at h; simp [Except.map] at h
              | ok s2 => exact (ih rest.tail hrt).1 s2 h2 nm hm
            · simp only [if_neg hh] at hm
              simp at hm
          · simp only [if_neg hc, if_neg hc2] at h hm
            cases h2 : substAux ctx rest with
            | error e => rw [h2] at h; simp [Except.map] at h
            | ok s2 => exact (ih rest hr).1 s2 h2 nm hm
      · intro acc s h nm hm
        rw [substName] at h
        rw [refsName] at hm
        by_cases hc : c = '}'
        · simp only [if_pos hc] at h hm
          cases hl : List.lookup (String.mk acc) ctx with
          | none => rw [hl] at h; cases h
          | some v =>
            rw [hl] at h
            rcases List.mem_cons.mp hm with rfl | hm'
            · rw [hl]; simp
            · cases h2 : substAux ctx rest with
              | error e => rw [h2] at h; simp [Except.map] at h
              | ok s2 => exact (ih rest hr).1 s2 h2 nm hm'
        · by_cases hc2 : c = '{'
          · simp only [if_neg hc, if_pos hc2] at h
            cases h
          · simp only [if_neg hc, if_neg hc2] at h hm
            exact (ih rest hr).2 (acc ++ [c]) s h nm hm

theorem subst_wf_no_badFormat (ctx : List (String × String)) :
    ∀ (N : ℕ) (cs : List Char), cs.length ≤ N →
      (wfAux cs = true → substAux ctx cs ≠ .error .badFormat) ∧
      (∀ acc, wfName cs = true → substName ctx acc cs ≠ .error .badFormat) := by
  intro N
  induction N with
  | zero =>
    intro cs hlen
    have hnil : cs = [] := List.length_eq_zero.mp (Nat.le_zero.mp hlen)
    subst hnil
    constructor
    · intro _ h
      rw [substAux] at h
      cases h
    · intro acc hwf
      rw [wfName] at hwf
      simp at hwf
  | succ N ih =>
    intro cs hlen
    cases cs with
    | nil =>
      constructor
      · intro _ h
        rw [substAux] at h
        cases h
      · intro acc hwf
        rw [wfName] at hwf
        simp at hwf
    | cons c rest =>
      have hr : rest.length ≤ N := by
        simp only [List.length_cons] at hlen; omega
      have hrt : rest.tail.length ≤ N := by
        simp only [List.length_tail]; omega
      constructor
      · intro hwf h
        rw [wfAux] at hwf
        rw [substAux] at h
        by_cases hc : c = '{'
        · simp only [if_pos hc] at hwf h
          by_cases hh : rest.head? = some '{'
          · simp only [if_pos hh] at hwf h
            cases h2 : substAux ctx rest.tail with
            | error e =>
              rw [h2] at h
              simp only [Except.map] at h
              injection h with h
              exact (ih rest.tail hrt).1 hwf (by rw [h2, h])
            | ok s => rw [h2] at h; simp [Except.map] at h
          · simp only [if_neg hh] at hwf h
            exact (ih rest hr).2 [] hwf h
        · by_cases hc2 : c = '}'
          · simp only [if_neg hc, if_pos hc2] at hwf h
            by_cases hh : rest.head? = some '}'
            · simp only [if_pos hh] at hwf h
              cases h2 : substAux ctx rest.tail with
              | error e =>
                rw [h2] at h
                simp only [Except.map] at h
                injection h with h
                exact (ih rest.tail hrt).1 hwf (by rw [h2, h])
              | ok s => rw [h2] at h; simp [Except.map] at h
            · simp only [if_neg hh] at hwf
              simp at hwf
          · simp only [if_neg hc, if_neg hc2] at hwf h
            cases h2 : substAux ctx rest with
            | error e =>
              rw [h2] at h
              simp only [Except.map] at h
              injection h with h
              exact (ih rest hr).1 hwf (by rw [h2, h])
            | ok s => rw [h2] at h; simp [Except.map] at h
      · intro acc hwf h
        rw [wfName] at hwf
        rw [substName] at h
        by_cases hc : c = '}'
        · simp only [if_pos hc] at hwf h
          cases hl : List.lookup (String.mk acc) ctx with
          | none => rw [hl] at h; simp at h
          | some v =>
            rw [hl] at h
            cases h2 : substAux ctx rest with
            | error e =>
              rw [h2] at h
              simp only [Except.map] at h
              injection h with h
              exact (ih rest hr).1 hwf (by rw [h2, h])
            | ok s => rw [h2] at h; simp [Except.map] at h
        · by_cases hc2 : c = '{'
          · simp only [if_neg hc, if_pos hc2] at hwf
            simp at hwf
          · simp only [if_neg hc, if_neg hc2] at hwf h
            exact (ih rest hr).2 (acc ++ [c]) hwf h

theorem refsName_scan (name : List Char) (hn : braceFree name = true) :
    ∀ (acc rest : List Char),
      refsName acc (name ++ '}' :: rest) = String.mk (acc ++ name) :: refsAux rest := by
  induction name with
  | nil =>
    intro acc rest
    rw [List.nil_append, refsName]
    simp
  | cons c name' ih =>
    obtain ⟨h1, h2, h3⟩ := braceFree_cons hn
    intro acc rest
    rw [List.cons_append, refsName]
    simp only [if_neg h2, if_neg h1]
    rw [ih h3 (acc ++ [c]) rest]
    simp

theorem wfName_scan (name : List Char) (hn : braceFree name = true) :
    ∀ rest : List Char, wfName (name ++ '}' :: rest) = wfAux rest := by
  induction name with
  | nil =>
    intro rest
    rw [List.nil_append, wfName]
    simp
  | cons c name' ih =>
    obtain ⟨h1, h2, h3⟩ := braceFree_cons hn
    intro rest
    rw [List.cons_append, wfName]
    simp only [if_neg h2, if_neg h1]
    exact ih h3 rest

theorem head_append_close_ne_open (name : List Char) (hn : braceFree name = true) :
    (name ++ '}' :: []).head? ≠ some '{' := by
  cases name with
  | nil => simp
  | cons c cs =>
    obtain ⟨h1, _, _⟩ := braceFree_cons hn
    simp [h1]

theorem templateRefs_single (name : String) (hn : braceFree name.data = true) :
    templateRefs ("\x7b" ++ name ++ "\x7d") = [name] := by
  have hdata : ("\x7b" ++ name ++ "\x7d").data = '{' :: (name.data ++ '}' :: []) := by
    simp [String.data_append]
  rw [templateRefs, hdata, refsAux]
  have hh := head_append_close_ne_open name.data hn
  simp only [if_pos rfl, if_neg hh]
  rw [refsName_scan name.data hn [] [], refsAux]
  simp

theorem wfTemplate_single (name : String) (hn : braceFree name.data = true) :
    wfTemplate ("\x7b" ++ name ++ "\x7d") = true := by
  have hdata : ("\x7b" ++ name ++ "\x7d").data = '{' :: (name.data ++ '}' :: []) := by
    simp [String.data_append]
  rw [wfTemplate, hdata, wfAux]
  have hh := head_append_close_ne_open name.data hn
  simp only [if_pos rfl, if_neg hh]
  rw [wfName_scan name.data hn [], wfAux]
  simp

/-- C6: context substitution (a) inserts every supplied value as an opaque
literal in a single pass — a value `v` containing `{`/`}` (JSON and the like)
is preserved verbatim and raises no missing-key error — and (b) fails with
"Context missing key for step N: name" exactly when the destination template
itself references a name not supplied in the context, in both directions: the
failing name is always one the template references with no context entry; a
template all of whose referenced names are supplied never produces a
missing-key error; and a well-formed template referencing at least one
unsupplied name really does fail, with a missing-key error naming a
referenced unsupplied name and with the step-scoped message. -/
theorem context_substitution_literal (ctx : List (String × String))
    (pre name suf v : String) (n : ℕ) (t : String)
    (hpre : braceFree pre.data = true) (hname : braceFree name.data = true)
    (hsuf : braceFree suf.data = true)
    (hv : List.lookup name ctx = some v) :
    subst (pre ++ "\x7b" ++ name ++ "\x7d" ++ suf) ctx = .ok (pre ++ v ++ suf) ∧
    (∀ nm, subst t ctx = .error (.missingKey nm) →
      buildStepPrompt n t ctx =
        .error ("Context missing key for step " ++ toString n ++ ": " ++ nm) ∧
      nm ∈ templateRefs t ∧ List.lookup nm ctx = none) ∧
    ((∀ nm ∈ templateRefs t, List.lookup nm ctx ≠ none) →
      ∀ nm, subst t ctx ≠ .error (.missingKey nm)) ∧
    (wfTemplate t = true →
      (∃ nm ∈ templateRefs t, List.lookup nm ctx = none) →
      ∃ nm2, nm2 ∈ templateRefs t ∧ List.lookup nm2 ctx = none ∧
        subst t ctx = .error (.missingKey nm2) ∧
        buildStepPrompt n t ctx =
          .error ("Context missing key for step " ++ toString n ++ ": " ++ nm2)) := by
  refine ⟨?_, ?_, ?_, ?_⟩
  · have hdata : (pre ++ "\x7b" ++ name ++ "\x7d" ++ suf).data =
        pre.data ++ '{' :: (name.data ++ '}' :: suf.data) := by
      simp [String.data_append]
    rw [subst, hdata, substAux_append_braceFree ctx _ _ hpre]
    rw [substAux]
    have hh := head_ne_open_brace hname
    have hscan := substName_scan ctx name.data hname [] suf.data
    simp only [List.nil_append] at hscan
    rw [hscan]
    have hmk : String.mk name.data = name := rfl
    rw [hmk, hv, substAux_braceFree ctx suf.data hsuf]
    have hstr : String.mk (pre.data ++ (v.data ++ suf.data)) = pre ++ v ++ suf := by
      have h2 : (pre ++ v ++ suf).data = pre.data ++ (v.data ++ suf.data) := by
        simp [String.data_append, List.append_assoc]
      calc String.mk (pre.data ++ (v.data ++ suf.data))
          = String.mk (pre ++ v ++ suf).data := by rw [h2]
        _ = pre ++ v ++ suf := rfl
    simp [Except.map, hh, hstr]
  · intro nm h
    have hsub : substAux ctx t.data = .error (.missingKey nm) := by
      rw [subst] at h
      cases h2 : substAux ctx t.data with
      | error e => rw [h2] at h; simp [Except.map] at h; rw [h]
      | ok s => rw [h2] at h; simp [Except.map] at h
    have hres := (subst_missing_sound ctx t.data.length t.data le_rfl).1 nm hsub
    refine ⟨?_, hres.1, hres.2⟩
    rw [buildStepPrompt, h]
  · intro hsup nm h
    have hsub : substAux ctx t.data = .error (.missingKey nm) := by
      rw [subst] at h
      cases h2 : substAux ctx t.data with
      | error e => rw [h2] at h; simp [Except.map] at h; rw [h]
      | ok s => rw [h2] at h; simp [Except.map] at h
    have hres := (subst_missing_sound ctx t.data.length t.data le_rfl).1 nm hsub
    exact hsup nm hres.1 hres.2
  · intro hwf hex
    rcases hex with ⟨nm0, hnm0, hlook0⟩
    cases h2 : substAux ctx t.data with
    | ok s =>
      exact absurd hlook0 ((subst_ok_refs ctx t.data.length t.data le_rfl).1 s h2 nm0 hnm0)
    | error e =>
      cases e with
      | badFormat =>
        exact absurd h2 ((subst_wf_no_badFormat ctx t.data.length t.data le_rfl).1 hwf)
      | missingKey nm2 =>
        have hres := (subst_missing_sound ctx t.data.length t.data le_rfl).1 nm2 h2
        have hsubst : subst t ctx = .error (.missingKey nm2) := by
          rw [subst, h2]
          rfl
        refine ⟨nm2, hres.1, hres.2, hsubst, ?_⟩
        rw [buildStepPrompt, hsubst]

/-- C6 witness: a JSON-bearing value is substituted verbatim; the template
referencing only the unsupplied `step4_output` really fails: its substitution
returns the missing-key error for `step4_output` and the step-5-scoped
message, exhibited through the final conjunct. -/
theorem context_substitution_literal_witness :
    subst ("Issue: " ++ "\x7b" ++ "issue_content" ++ "\x7d" ++ " end")
        [("issue_content", "\x7b \"type\": \"test\" \x7d")] =
      .ok ("Issue: " ++ "\x7b \"type\": \"test\" \x7d" ++ " end") ∧
    (∀ nm, subst ("\x7b" ++ "step4_output" ++ "\x7d")
        [("issue_content", "\x7b \"type\": \"test\" \x7d")] =
        .error (.missingKey nm) →
      buildStepPrompt 5 ("\x7b" ++ "step4_output" ++ "\x7d")
          [("issue_content", "\x7b \"type\": \"test\" \x7d")] =
        .error ("Context missing key for step " ++ toString 5 ++ ": " ++ nm) ∧
      nm ∈ templateRefs ("\x7b" ++ "step4_output" ++ "\x7d") ∧
      List.lookup nm [("issue_content", "\x7b \"type\": \"test\" \x7d")] = none) ∧
    ((∀ nm ∈ templateRefs ("\x7b" ++ "step4_output" ++ "\x7d"),
        List.lookup nm [("issue_content", "\x7b \"type\": \"test\" \x7d")] ≠ none) →
      ∀ nm, subst ("\x7b" ++ "step4_output" ++ "\x7d")
        [("issue_content", "\x7b \"type\": \"test\" \x7d")] ≠
        .error (.missingKey nm)) ∧
    (∃ nm2, nm2 ∈ templateRefs ("\x7b" ++ "step4_output" ++ "\x7d") ∧
      List.lookup nm2 [("issue_content", "\x7b \"type\": \"test\" \x7d")] = none ∧
      subst ("\x7b" ++ "step4_output" ++ "\x7d")
          [("issue_content", "\x7b \"type\": \"test\" \x7d")] =
        .error (.missingKey nm2) ∧
      buildStepPrompt 5 ("\x7b" ++ "step4_output" ++ "\x7d")
          [("issue_content", "\x7b \"type\": \"test\" \x7d")] =
        .error ("Context missing key for step " ++ toString 5 ++ ": " ++ nm2)) :=
  have h := context_substitution_literal
    [("issue_content", "\x7b \"type\": \"test\" \x7d")]
    "Issue: " "issue_content" " end" "\x7b \"type\": \"test\" \x7d" 5
    ("\x7b" ++ "step4_output" ++ "\x7d")
    (by decide) (by decide) (by decide) (by decide)
  ⟨h.1, h.2.1, h.2.2.1,
    h.2.2.2 (wfTemplate_single "step4_output" (by decide))
      ⟨"step4_output",
        by rw [templateRefs_single "step4_output" (by decide)]; exact List.mem_singleton_self _,
        by decide⟩⟩

theorem stagePres_seq {P : Trace → Prop} {Q : OrchResult → Prop}
    {f g : Trace → Except OrchResult Trace}
    (hf : StagePres P Q f) (hg : StagePres P Q g) : StagePres P Q (stepSeq f g) := by
  intro tr hP
  have h1 := hf tr hP
  unfold stepSeq
  cases hft : f tr with
  | error r => rw [hft] at h1; exact h1
  | ok tr' => rw [hft] at h1; exact hg tr' h1

theorem after_pres {env : Env} {P : Trace → Prop} {Q : OrchResult → Prop}
    (h9 : StagePres P Q (runStep9 env))
    (hwt : ∀ tr, P tr → Q (mkResult false "Failed to create worktree" tr))
    (hloop : ∀ tr i fuel, P tr → P (reviewLoop env tr i fuel))
    (h12 : ∀ tr, P tr → Q (runStep12 env tr)) :
    ∀ tr, P tr → Q (afterSteps18 env tr) := by
  intro tr hP
  unfold afterSteps18
  by_cases hw : env.worktree_ok = true
  · simp only [if_pos hw]
    have h9' := h9 tr hP
    cases h9r : runStep9 env tr with
    | error r => rw [h9r] at h9'; exact h9'
    | ok tr2 => rw [h9r] at h9'; exact h12 _ (hloop _ _ _ h9')
  · simp only [if_neg hw]
    exact hwt tr hP

theorem finish_pres {env : Env} {P : Trace → Prop} {Q : OrchResult → Prop}
    {chain : Trace → Except OrchResult Trace}
    (hchain : StagePres P Q chain)
    (hafter : ∀ tr, P tr → Q (afterSteps18 env tr)) :
    ∀ tr, P tr →
      Q (match chain tr with
        | .error r => r
        | .ok t => afterSteps18 env t) := by
  intro tr hP
  have h1 := hchain tr hP
  cases hc : chain tr with
  | error r => rw [hc] at h1; exact h1
  | ok t => rw [hc] at h1; exact hafter t h1

theorem run_pres {env : Env} {P : Trace → Prop} {Q : OrchResult → Prop}
    (h18 : ∀ n, 1 ≤ n → n ≤ 8 → StagePres P Q (runStep env n))
    (h9 : StagePres P Q (runStep9 env))
    (hwt : ∀ tr, P tr → Q (mkResult false "Failed to create worktree" tr))
    (hloop : ∀ tr i fuel, P tr → P (reviewLoop env tr i fuel))
    (h12 : ∀ tr, P tr → Q (runStep12 env tr))
    (hinit : P (initTrace env)) :
    Q (run_agentic_change_orchestrator env) := by
  have hchain : StagePres P Q (runSteps18 env) := by
    unfold runSteps18
    refine stagePres_seq (h18 1 ?_ ?_) (stagePres_seq (h18 2 ?_ ?_)
      (stagePres_seq (h18 3 ?_ ?_) (stagePres_seq (h18 4 ?_ ?_)
        (stagePres_seq (h18 5 ?_ ?_) (stagePres_seq (h18 6 ?_ ?_)
          (stagePres_seq (h18 7 ?_ ?_) (h18 8 ?_ ?_))))))) <;> omega
  unfold run_agentic_change_orchestrator
  exact finish_pres hchain (after_pres h9 hwt hloop h12) (initTrace env) hinit

theorem sumCosts_append (l l' : List Call) :
    sumCosts (l ++ l') = sumCosts l + sumCosts l' := by
  simp [sumCosts]

theorem cost_runStep (env : Env) (base : ℚ) (n : ℕ) :
    StagePres (fun tr => tr.st.total_cost = base + sumCosts tr.calls)
      (fun r => r.total_cost = base + sumCosts r.calls) (runStep env n) := by
  intro tr hP
  simp only [runStep, doCall]
  by_cases hle : n ≤ tr.st.last_completed_step
  · simp only [if_pos hle]
    exact hP
  · simp only [if_neg hle]
    by_cases hs : (env.exec (Label.step n)).success = true
    · simp only [hs, if_true]
      cases hg : gateCheck n (env.exec (Label.step n)).output with
      | some reason =>
        simp only [hg]
        simp [mkResult, saveState, completeStep, recordOutput, sumCosts_append, sumCosts, hP]
        ring
      | none =>
        simp only [hg]
        simp [saveState, completeStep, recordOutput, sumCosts_append, sumCosts, hP]
        ring
    · simp only [Bool.not_eq_true] at hs
      simp only [hs, Bool.false_eq_true, if_false]
      simp [mkResult, sumCosts_append, sumCosts, hP]
      ring

theorem cost_runStep9 (env : Env) (base : ℚ) :
    StagePres (fun tr => tr.st.total_cost = base + sumCosts tr.calls)
      (fun r => r.total_cost = base + sumCosts r.calls) (runStep9 env) := by
  intro tr hP
  simp only [runStep9, doCall]
  by_cases hle : 9 ≤ tr.st.last_completed_step
  · simp only [if_pos hle]
    exact hP
  · simp only [if_neg hle]
    by_cases hs : (env.exec (Label.step 9)).success = true
    · simp only [hs, if_true]
      by_cases hm : hasFileMarker (env.exec (Label.step 9)).output = true
      · simp only [hm, if_true]
        simp [saveState, completeStep, recordOutput, sumCosts_append, sumCosts, hP]
        ring
      · simp only [Bool.not_eq_true] at hm
        simp only [hm, Bool.false_eq_true, if_false]
        simp [mkResult, saveState, sumCosts_append, sumCosts, hP]
        ring
    · simp only [Bool.not_eq_true] at hs
      simp only [hs, Bool.false_eq_true, if_false]
      simp [mkResult, sumCosts_append, sumCosts, hP]
      ring

theorem cost_reviewLoop (env : Env) (base : ℚ) :
    ∀ (fuel : ℕ) (tr : Trace) (i : ℕ),
      tr.st.total_cost = base + sumCosts tr.calls →
      (reviewLoop env tr i fuel).st.total_cost =
        base + sumCosts (reviewLoop env tr i fuel).calls := by
  intro fuel
  induction fuel with
  | zero => intro tr i hP; exact hP
  | succ f ih =>
    intro tr i hP
    simp only [reviewLoop, doCall]
    by_cases hi : issuesFound (env.exec (Label.iter 10 i)).output = true
    · simp only [hi, if_true]
      apply ih
      simp [saveState, recordOutput, sumCosts_append, sumCosts, hP]
      ring
    · simp only [Bool.not_eq_true] at hi
      simp only [hi, Bool.false_eq_true, if_false]
      simp [saveState, recordOutput, sumCosts_append, sumCosts, hP]
      ring

theorem cost_runStep12 (env : Env) (base : ℚ) :
    ∀ tr : Trace, tr.st.total_cost = base + sumCosts tr.calls →
      (runStep12 env tr).total_cost = base + sumCosts (runStep12 env tr).calls := by
  intro tr hP
  simp only [runStep12, doCall]
  by_cases hs : (env.exec (Label.step 12)).success = true
  · simp only [hs, if_true]
    simp [mkResult, recordOutput, sumCosts_append, sumCosts, hP]
    ring
  · simp only [Bool.not_eq_true] at hs
    simp only [hs, Bool.false_eq_true, if_false]
    simp [mkResult, sumCosts_append, sumCosts, hP]
    ring

/-- C5: for every run of `run_agentic_change_orchestrator` and every
interleaving of step successes and failures (any executor, any checkpoint,
any worktree outcome), the returned `total_cost` equals the cost recovered
from the loaded checkpoint (0 when none) plus the sum of the reported costs
of every step and review-loop iteration actually executed in this
invocation, including failed ones. -/
theorem total_cost_accounting (env : Env) :
    (run_agentic_change_orchestrator env).total_cost =
      recoveredCost env + sumCosts (run_agentic_change_orchestrator env).calls := by
  refine run_pres
    (P := fun tr => tr.st.total_cost = recoveredCost env + sumCosts tr.calls)
    (Q := fun r => r.total_cost = recoveredCost env + sumCosts r.calls)
    (fun n _ _ => cost_runStep env _ n) (cost_runStep9 env _) ?_
    (fun tr i fuel h => cost_reviewLoop env _ fuel tr i h) (cost_runStep12 env _) ?_
  · intro tr hP
    simpa [mkResult] using hP
  · cases hc : env.checkpoint with
    | none => simp [initTrace, hc, initState, recoveredCost, sumCosts]
    | some st => simp [initTrace, hc, recoveredCost, sumCosts]

theorem nondec_concat {l : List ℕ} {a : ℕ} (h : nondecreasing l)
    (ha : ∀ x ∈ l, x ≤ a) : nondecreasing (l ++ [a]) := by
  rw [nondecreasing, List.chain'_append]
  refine ⟨h, List.chain'_singleton a, ?_⟩
  intro x hx y hy
  simp only [List.head?_cons, Option.mem_def, Option.some.injEq] at hy
  subst hy
  exact ha x (List.mem_of_mem_getLast? hx)

theorem saved_save {tr : Trace}
    (h1 : nondecreasing (tr.saved.map WorkflowState.last_completed_step))
    (h2 : ∀ s ∈ tr.saved, s.last_completed_step ≤ tr.st.last_completed_step) :
    nondecreasing ((saveState tr).saved.map WorkflowState.last_completed_step) ∧
      ∀ s ∈ (saveState tr).saved,
        s.last_completed_step ≤ (saveState tr).st.last_completed_step := by
  constructor
  · simp only [saveState, List.map_append, List.map_cons, List.map_nil]
    exact nondec_concat h1 (by
      intro x hx
      rcases List.mem_map.mp hx with ⟨s, hs, rfl⟩
      exact h2 s hs)
  · intro s hs
    simp only [saveState] at hs ⊢
    rcases List.mem_append.mp hs with h' | h'
    · exact h2 s h'
    · simp only [List.mem_singleton] at h'
      subst h'
      exact le_refl _

theorem doCall_snd (env : Env) (tr : Trace) (lab : Label) :
    (doCall env tr lab).2 = env.exec lab := rfl

theorem saved_exec_save (env : Env) (tr : Trace) (lab : Label) (key out : String) (n : ℕ)
    (h1 : nondecreasing (tr.saved.map WorkflowState.last_completed_step))
    (hn : ∀ s ∈ tr.saved, s.last_completed_step ≤ n) :
    nondecreasing
      ((saveState (completeStep (recordOutput (doCall env tr lab).1 key out) n)).saved.map
        WorkflowState.last_completed_step) ∧
    ∀ s ∈ (saveState (completeStep (recordOutput (doCall env tr lab).1 key out) n)).saved,
      s.last_completed_step ≤
        (saveState (completeStep (recordOutput (doCall env tr lab).1 key out) n)).st.last_completed_step := by
  apply saved_save
  · simpa [completeStep, recordOutput, doCall] using h1
  · intro s hs
    simp only [completeStep, recordOutput, doCall] at hs ⊢
    exact hn s hs

theorem saved_runStep (env : Env) (n : ℕ) :
    StagePres
      (fun tr => nondecreasing (tr.saved.map WorkflowState.last_completed_step) ∧
        ∀ s ∈ tr.saved, s.last_completed_step ≤ tr.st.last_completed_step)
      (fun r => nondecreasing (r.saved.map WorkflowState.last_completed_step))
      (runStep env n) := by
  intro tr hP
  simp only [runStep, doCall_snd]
  by_cases hle : n ≤ tr.st.last_completed_step
  · simp only [if_pos hle]
    exact hP
  · simp only [if_neg hle]
    have hstep : ∀ s ∈ tr.saved, s.last_completed_step ≤ n := by
      intro s hs
      have := hP.2 s hs
      omega
    by_cases hs : (env.exec (Label.step n)).success = true
    · simp only [hs, if_true]
      have hsave := saved_exec_save env tr (.step n) (toString n)
        (env.exec (Label.step n)).output n hP.1 hstep
      cases hg : gateCheck n (env.exec (Label.step n)).output with
      | some reason =>
        simp only [hg]
        exact hsave.1
      | none =>
        simp only [hg]
        exact hsave
    · simp only [Bool.not_eq_true] at hs
      simp only [hs, Bool.false_eq_true, if_false]
      exact hP.1

theorem saved_rec_save (env : Env) (tr : Trace) (lab : Label) (key out : String)
    (h1 : nondecreasing (tr.saved.map WorkflowState.last_completed_step))
    (h2 : ∀ s ∈ tr.saved, s.last_completed_step ≤ tr.st.last_completed_step) :
    nondecreasing
      ((saveState (recordOutput (doCall env tr lab).1 key out)).saved.map
        WorkflowState.last_completed_step) ∧
    ∀ s ∈ (saveState (recordOutput (doCall env tr lab).1 key out)).saved,
      s.last_completed_step ≤
        (saveState (recordOutput (doCall env tr lab).1 key out)).st.last_completed_step := by
  apply saved_save
  · simpa [recordOutput, doCall] using h1
  · intro s hs
    simp only [recordOutput, doCall] at hs ⊢
    exact h2 s hs

theorem saved_runStep9 (env : Env) :
    StagePres
      (fun tr => nondecreasing (tr.saved.map WorkflowState.last_completed_step) ∧
        ∀ s ∈ tr.saved, s.last_completed_step ≤ tr.st.last_completed_step)
      (fun r => nondecreasing (r.saved.map WorkflowState.last_completed_step))
      (runStep9 env) := by
  intro tr hP
  simp only [runStep9, doCall_snd]
  by_cases hle : 9 ≤ tr.st.last_completed_step
  · simp only [if_pos hle]
    exact hP
  · simp only [if_neg hle]
    have hstep : ∀ s ∈ tr.saved, s.last_completed_step ≤ 9 := by
      intro s hs
      have := hP.2 s hs
      omega
    by_cases hs : (env.exec (Label.step 9)).success = true
    · simp only [hs, if_true]
      by_cases hm : hasFileMarker (env.exec (Label.step 9)).output = true
      · simp only [hm, if_true]
        exact saved_exec_save env tr (.step 9) "9" (env.exec (Label.step 9)).output 9 hP.1 hstep
      · simp only [Bool.not_eq_true] at hm
        simp only [hm, Bool.false_eq_true, if_false]
        have hsave : nondecreasing
            ((saveState (doCall env tr (.step 9)).1).saved.map WorkflowState.last_completed_step) ∧
            ∀ s ∈ (saveState (doCall env tr (.step 9)).1).saved,
              s.last_completed_step ≤ (saveState (doCall env tr (.step 9)).1).st.last_completed_step := by
          apply saved_save
          · simpa [doCall] using hP.1
          · intro s hs'
            simp only [doCall] at hs' ⊢
            exact hP.2 s hs'
        exact hsave.1
    · simp only [Bool.not_eq_true] at hs
      simp only [hs, Bool.false_eq_true, if_false]
      exact hP.1

theorem saved_reviewLoop (env : Env) :
    ∀ (fuel : ℕ) (tr : Trace) (i : ℕ),
      (nondecreasing (tr.saved.map WorkflowState.last_completed_step) ∧
        ∀ s ∈ tr.saved, s.last_completed_step ≤ tr.st.last_completed_step) →
      (nondecreasing ((reviewLoop env tr i fuel).saved.map WorkflowState.last_completed_step) ∧
        ∀ s ∈ (reviewLoop env tr i fuel).saved,
          s.last_completed_step ≤ (reviewLoop env tr i fuel).st.last_completed_step) := by
  intro fuel
  induction fuel with
  | zero => intro tr i hP; exact hP
  | succ f ih =>
    intro tr i hP
    simp only [reviewLoop, doCall_snd]
    have h10 := saved_rec_save env tr (.iter 10 i) ("10_iter" ++ toString i)
      (env.exec (Label.iter 10 i)).output hP.1 hP.2
    by_cases hi : issuesFound (env.exec (Label.iter 10 i)).output = true
    · simp only [hi, if_true]
      apply ih
      exact saved_rec_save env _ (.iter 11 i) ("11_iter" ++ toString i)
        (env.exec (Label.iter 11 i)).output h10.1 h10.2
    · simp only [Bool.not_eq_true] at hi
      simp only [hi, Bool.false_eq_true, if_false]
      exact h10

theorem saved_runStep12 (env : Env) :
    ∀ tr : Trace,
      (nondecreasing (tr.saved.map WorkflowState.last_completed_step) ∧
        ∀ s ∈ tr.saved, s.last_completed_step ≤ tr.st.last_completed_step) →
      nondecreasing ((runStep12 env tr).saved.map WorkflowState.last_completed_step) := by
  intro tr hP
  simp only [runStep12, doCall_snd]
  by_cases hs : (env.exec (Label.step 12)).success = true
  · simp only [hs, if_true]
    exact hP.1
  · simp only [Bool.not_eq_true] at hs
    simp only [hs, Bool.false_eq_true, if_false]
    exact hP.1

theorem saved_monotone (env : Env) :
    nondecreasing ((run_agentic_change_orchestrator env).saved.map
      WorkflowState.last_completed_step) := by
  refine run_pres
    (P := fun tr => nondecreasing (tr.saved.map WorkflowState.last_completed_step) ∧
      ∀ s ∈ tr.saved, s.last_completed_step ≤ tr.st.last_completed_step)
    (Q := fun r => nondecreasing (r.saved.map WorkflowState.last_completed_step))
    (fun n _ _ => saved_runStep env n) (saved_runStep9 env) ?_
    (fun tr i fuel h => saved_reviewLoop env fuel tr i h) (saved_runStep12 env) ?_
  · intro tr hP
    exact hP.1
  · constructor
    · simp [initTrace, nondecreasing]
    · intro s hs
      simp [initTrace] at hs

theorem step9_failure_scenario (env : Env) (st0 : WorkflowState)
    (hchk : env.checkpoint = some st0)
    (h5 : st0.last_completed_step = 5)
    (h6 : (env.exec (Label.step 6)).success = true)
    (h7 : (env.exec (Label.step 7)).success = true)
    (hm7 : containsMarker (env.exec (Label.step 7)).output architecturalMarker = false)
    (h8 : (env.exec (Label.step 8)).success = true)
    (h9 : (env.exec (Label.step 9)).success = true)
    (hm9 : hasFileMarker (env.exec (Label.step 9)).output = false)
    (hw : env.worktree_ok = true) :
    ∃ s, (run_agentic_change_orchestrator env).persisted = some s ∧
      s.last_completed_step = 8 ∧
      ("6", (env.exec (Label.step 6)).output) ∈ s.step_outputs ∧
      ("7", (env.exec (Label.step 7)).output) ∈ s.step_outputs ∧
      ("8", (env.exec (Label.step 8)).output) ∈ s.step_outputs := by
  have ht6 : toString (6 : ℕ) = "6" := by decide
  have ht7 : toString (7 : ℕ) = "7" := by decide
  have ht8 : toString (8 : ℕ) = "8" := by decide
  obtain ⟨inum, lcs0, outs0, cost0, model0⟩ := st0
  simp only at h5
  subst h5
  simp [run_agentic_change_orchestrator, runSteps18, stepSeq, initTrace, hchk,
    Option.getD_some, runStep, runStep9, afterSteps18, doCall, saveState, completeStep,
    recordOutput, mkResult, gateCheck, h6, h7, h8, h9, hm7, hm9, hw, ht6, ht7, ht8]

/-- C2: (a) in every run that resumes from a checkpoint with
`last_completed_step = 5`, where steps 6, 7, 8 then succeed and step 9 fails
its file-list-marker postcondition, the checkpoint persisted at the failure
has `last_completed_step = 8` — never 5 or any stale lower value — and holds
the outputs of steps 6, 7 and 8; and (b) in every run, `last_completed_step`
in successive saved checkpoints never decreases. -/
theorem checkpoint_preserves_completed_steps :
    (∀ (env : Env) (st0 : WorkflowState),
      env.checkpoint = some st0 →
      st0.last_completed_step = 5 →
      (env.exec (Label.step 6)).success = true →
      (env.exec (Label.step 7)).success = true →
      containsMarker (env.exec (Label.step 7)).output architecturalMarker = false →
      (env.exec (Label.step 8)).success = true →
      (env.exec (Label.step 9)).success = true →
      hasFileMarker (env.exec (Label.step 9)).output = false →
      env.worktree_ok = true →
      ∃ s, (run_agentic_change_orchestrator env).persisted = some s ∧
        s.last_completed_step = 8 ∧
        ("6", (env.exec (Label.step 6)).output) ∈ s.step_outputs ∧
        ("7", (env.exec (Label.step 7)).output) ∈ s.step_outputs ∧
        ("8", (env.exec (Label.step 8)).output) ∈ s.step_outputs) ∧
    ∀ env : Env,
      nondecreasing ((run_agentic_change_orchestrator env).saved.map
        WorkflowState.last_completed_step) :=
  ⟨step9_failure_scenario, saved_monotone⟩

/-- C2 witness: the concrete scenario of
`test_orchestrator_step9_failure_preserves_completed_steps`. -/
theorem checkpoint_preserves_completed_steps_witness :
    (∃ s, (run_agentic_change_orchestrator envC2).persisted = some s ∧
      s.last_completed_step = 8 ∧
      ("6", (envC2.exec (Label.step 6)).output) ∈ s.step_outputs ∧
      ("7", (envC2.exec (Label.step 7)).output) ∈ s.step_outputs ∧
      ("8", (envC2.exec (Label.step 8)).output) ∈ s.step_outputs) ∧
    nondecreasing ((run_agentic_change_orchestrator envC2).saved.map
      WorkflowState.last_completed_step) :=
  ⟨checkpoint_preserves_completed_steps.1 envC2 _ rfl (by decide) (by decide)
    (by decide) (by decide) (by decide) (by decide) (by decide) rfl,
   checkpoint_preserves_completed_steps.2 envC2⟩

theorem calls_ub_runStep (env : Env) (m n : ℕ) (hn : n ≤ m) :
    StagePres (fun tr => ∀ c ∈ tr.calls, ∃ j, c.label = Label.step j ∧ j ≤ m)
      (fun r => ∀ c ∈ r.calls, ∃ j, c.label = Label.step j ∧ j ≤ m)
      (runStep env n) := by
  intro tr hP
  simp only [runStep, doCall_snd]
  by_cases hle : n ≤ tr.st.last_completed_step
  · simp only [if_pos hle]
    exact hP
  · simp only [if_neg hle]
    have hnew : ∀ c ∈ (doCall env tr (Label.step n)).1.calls,
        ∃ j, c.label = Label.step j ∧ j ≤ m := by
      intro c hc
      simp only [doCall] at hc
      rcases List.mem_append.mp hc with h' | h'
      · exact hP c h'
      · simp only [List.mem_singleton] at h'
        subst h'
        exact ⟨n, rfl, hn⟩
    by_cases hs : (env.exec (Label.step n)).success = true
    · simp only [hs, if_true]
      cases hg : gateCheck n (env.exec (Label.step n)).output with
      | some reason =>
        simp only [hg]
        intro c hc
        apply hnew
        simpa [mkResult, saveState, completeStep, recordOutput] using hc
      | none =>
        simp only [hg]
        intro c hc
        apply hnew
        simpa [saveState, completeStep, recordOutput] using hc
    · simp only [Bool.not_eq_true] at hs
      simp only [hs, Bool.false_eq_true, if_false]
      intro c hc
      apply hnew
      simpa [mkResult] using hc

theorem calls_ub_runSteps18 (env : Env) :
    StagePres (fun tr => ∀ c ∈ tr.calls, ∃ j, c.label = Label.step j ∧ j ≤ 8)
      (fun r => ∀ c ∈ r.calls, ∃ j, c.label = Label.step j ∧ j ≤ 8)
      (runSteps18 env) := by
  unfold runSteps18
  refine stagePres_seq (calls_ub_runStep env 8 1 ?_) (stagePres_seq (calls_ub_runStep env 8 2 ?_)
    (stagePres_seq (calls_ub_runStep env 8 3 ?_) (stagePres_seq (calls_ub_runStep env 8 4 ?_)
      (stagePres_seq (calls_ub_runStep env 8 5 ?_) (stagePres_seq (calls_ub_runStep env 8 6 ?_)
        (stagePres_seq (calls_ub_runStep env 8 7 ?_) (calls_ub_runStep env 8 8 ?_))))))) <;>
    omega

theorem runStep12_ok (env : Env) (tr : Trace)
    (hs : (env.exec (Label.step 12)).success = true) :
    (runStep12 env tr).success = true ∧
    (runStep12 env tr).persisted = none ∧
    ∀ url, extractPR (env.exec (Label.step 12)).output = some url →
      SubStr url (runStep12 env tr).message := by
  simp only [runStep12, doCall_snd, hs, if_true]
  refine ⟨rfl, rfl, ?_⟩
  intro url hurl
  simp only [hurl, mkResult]
  exact ⟨("Workflow completed successfully. PR: " : String).data, [], by
    simp [String.data_append]⟩

theorem calls_ub_runStep9 (env : Env) :
    StagePres (fun tr => ∀ c ∈ tr.calls, ∃ j, c.label = Label.step j ∧ j ≤ 9)
      (fun r => ∀ c ∈ r.calls, ∃ j, c.label = Label.step j ∧ j ≤ 9)
      (runStep9 env) := by
  intro tr hP
  simp only [runStep9, doCall_snd]
  by_cases hle : 9 ≤ tr.st.last_completed_step
  · simp only [if_pos hle]
    exact hP
  · simp only [if_neg hle]
    have hnew : ∀ c ∈ (doCall env tr (Label.step 9)).1.calls,
        ∃ j, c.label = Label.step j ∧ j ≤ 9 := by
      intro c hc
      simp only [doCall] at hc
      rcases List.mem_append.mp hc with h' | h'
      · exact hP c h'
      · simp only [List.mem_singleton] at h'
        subst h'
        exact ⟨9, rfl, le_refl 9⟩
    by_cases hs : (env.exec (Label.step 9)).success = true
    · simp only [hs, if_true]
      by_cases hm : hasFileMarker (env.exec (Label.step 9)).output = true
      · simp only [hm, if_true]
        intro c hc
        apply hnew
        simpa [saveState, completeStep, recordOutput] using hc
      · simp only [Bool.not_eq_true] at hm
        simp only [hm, Bool.false_eq_true, if_false]
        intro c hc
        apply hnew
        simpa [mkResult, saveState] using hc
    · simp only [Bool.not_eq_true] at hs
      simp only [hs, Bool.false_eq_true, if_false]
      intro c hc
      apply hnew
      simpa [mkResult] using hc

/-- C8: in every run in which step 12 actually executes and completes
successfully, the persisted checkpoint is removed entirely, the function
returns `success = true`, and the PR reference scanned from step 12's output
is propagated into the final success message. -/
theorem step12_success_clears_checkpoint (env : Env)
    (hs : (env.exec (Label.step 12)).success = true)
    (hmem : Label.step 12 ∈ (run_agentic_change_orchestrator env).calls.map Call.label) :
    (run_agentic_change_orchestrator env).success = true ∧
    (run_agentic_change_orchestrator env).persisted = none ∧
    ∀ url, extractPR (env.exec (Label.step 12)).output = some url →
      SubStr url (run_agentic_change_orchestrator env).message := by
  have hinit : ∀ c ∈ (initTrace env).calls, ∃ j, c.label = Label.step j ∧ j ≤ 8 := by
    intro c hc
    simp [initTrace] at hc
  have h1 := calls_ub_runSteps18 env (initTrace env) hinit
  unfold run_agentic_change_orchestrator at hmem ⊢
  cases hc : runSteps18 env (initTrace env) with
  | error r =>
    rw [hc] at h1 hmem
    exfalso
    rcases List.mem_map.mp hmem with ⟨c, hcmem, hlab⟩
    rcases h1 c hcmem with ⟨j, hj, hjle⟩
    rw [hj] at hlab
    injection hlab with hlab
    omega
  | ok tr =>
    rw [hc] at h1 hmem
    by_cases hw : env.worktree_ok = true
    · simp only [afterSteps18, hw, if_true] at hmem ⊢
      have h19 : ∀ c ∈ tr.calls, ∃ j, c.label = Label.step j ∧ j ≤ 9 := by
        intro c hcm
        rcases h1 c hcm with ⟨j, hj, hjle⟩
        exact ⟨j, hj, by omega⟩
      have h9 := calls_ub_runStep9 env tr h19
      cases h9c : runStep9 env tr with
      | error r =>
        rw [h9c] at h9 hmem
        exfalso
        rcases List.mem_map.mp hmem with ⟨c, hcmem, hlab⟩
        rcases h9 c hcmem with ⟨j, hj, hjle⟩
        rw [hj] at hlab
        injection hlab with hlab
        omega
      | ok tr2 =>
        exact runStep12_ok env _ hs
    · simp only [Bool.not_eq_true] at hw
      simp only [afterSteps18, hw, Bool.false_eq_true, if_false] at hmem
      exfalso
      rcases List.mem_map.mp hmem with ⟨c, hcmem, hlab⟩
      have hcmem' : c ∈ tr.calls := by simpa [mkResult] using hcmem
      rcases h1 c hcmem' with ⟨j, hj, hjle⟩
      rw [hj] at hlab
      injection hlab with hlab
      omega

/-- C8 witness: the happy path creates the PR, clears the checkpoint, and
reports the PR URL in the final message. -/
theorem step12_success_clears_checkpoint_witness :
    (run_agentic_change_orchestrator envC8).success = true ∧
    (run_agentic_change_orchestrator envC8).persisted = none ∧
    ∀ url, extractPR (envC8.exec (Label.step 12)).output = some url →
      SubStr url (run_agentic_change_orchestrator envC8).message :=
  step12_success_clears_checkpoint envC8 (by decide) (by decide)

theorem loopRun_bound (outcomes : ℕ → Bool) :
    ∀ k, ((loopRun outcomes k).terminated = false →
        (loopRun outcomes k).iteration = k ∧ k < maxReviewIterations) ∧
      (loopRun outcomes k).iteration ≤ maxReviewIterations := by
  intro k
  induction k with
  | zero => simp [loopRun, maxReviewIterations]
  | succ k ih =>
    simp only [loopRun, loopStep]
    by_cases ht : (loopRun outcomes k).terminated = true
    · simp only [ht, if_true]
      refine ⟨fun hf => by simp at hf, ih.2⟩
    · simp only [Bool.not_eq_true] at ht
      simp only [ht, Bool.false_eq_true, if_false]
      rcases ih.1 ht with ⟨hiter, hlt⟩
      constructor
      · intro hf
        simp only [Bool.or_eq_false_iff, decide_eq_false_iff_not, not_le] at hf
        exact ⟨by rw [hiter], by omega⟩
      · simp only [hiter]
        omega

theorem saveRec_calls (tr : Trace) (key out : String) :
    (saveState (recordOutput tr key out)).calls = tr.calls := rfl

theorem doCall_calls (env : Env) (tr : Trace) (lab : Label) :
    (doCall env tr lab).1.calls =
      tr.calls ++ [{ label := lab, ctx := buildContext env tr.st, result := env.exec lab }] :=
  rfl

theorem reviewLoop_count_identify (env : Env) :
    ∀ (fuel : ℕ) (tr : Trace) (i : ℕ),
      (reviewLoop env tr i fuel).calls.countP isIdentifyCall ≤
        tr.calls.countP isIdentifyCall + fuel := by
  intro fuel
  induction fuel with
  | zero => intro tr i; simp [reviewLoop]
  | succ f ih =>
    intro tr i
    simp only [reviewLoop, doCall_snd]
    by_cases hi : issuesFound (env.exec (Label.iter 10 i)).output = true
    · simp only [hi, if_true]
      refine le_trans (ih _ _) ?_
      rw [saveRec_calls, doCall_calls, saveRec_calls, doCall_calls]
      simp [List.countP_append, List.countP_cons, isIdentifyCall]
      omega
    · simp only [Bool.not_eq_true] at hi
      simp only [hi, Bool.false_eq_true, if_false]
      rw [saveRec_calls, doCall_calls]
      simp [List.countP_append, List.countP_cons, isIdentifyCall]

theorem reviewLoop_count_fix (env : Env) :
    ∀ (fuel : ℕ) (tr : Trace) (i : ℕ),
      (reviewLoop env tr i fuel).calls.countP isFixCall ≤
        tr.calls.countP isFixCall + fuel := by
  intro fuel
  induction fuel with
  | zero => intro tr i; simp [reviewLoop]
  | succ f ih =>
    intro tr i
    simp only [reviewLoop, doCall_snd]
    by_cases hi : issuesFound (env.exec (Label.iter 10 i)).output = true
    · simp only [hi, if_true]
      refine le_trans (ih _ _) ?_
      rw [saveRec_calls, doCall_calls, saveRec_calls, doCall_calls]
      simp [List.countP_append, List.countP_cons, isFixCall]
      omega
    · simp only [Bool.not_eq_true] at hi
      simp only [hi, Bool.false_eq_true, if_false]
      rw [saveRec_calls, doCall_calls]
      simp [List.countP_append, List.countP_cons, isFixCall]

theorem step12_called (env : Env) (tr : Trace) :
    Label.step 12 ∈ (runStep12 env tr).calls.map Call.label := by
  simp only [runStep12, doCall_snd]
  by_cases hs : (env.exec (Label.step 12)).success = true
  · simp [hs, mkResult, recordOutput, doCall]
  · simp only [Bool.not_eq_true] at hs
    simp [hs, mkResult, doCall]

/-- C1: the Review Convergence Loop always reaches a terminal decision and
proceeds to step 12.  As the state machine `(iteration, terminated)` of the
Z3 model: every reachable state has `iteration ≤ 5` (so no reachable state
has `iteration > 5` with `terminated = false`), and after 5 transitions the
machine is terminated for every outcome sequence.  On the orchestrator loop
itself: for every environment and starting trace, the loop performs at most
5 identify-steps and at most 5 fix-steps, and step 12 is invoked after it. -/
theorem review_loop_termination :
    (∀ (outcomes : ℕ → Bool) (k : ℕ),
      (loopRun outcomes k).iteration ≤ maxReviewIterations) ∧
    (∀ outcomes : ℕ → Bool,
      (loopRun outcomes maxReviewIterations).terminated = true) ∧
    (∀ (env : Env) (tr : Trace),
      (reviewLoop env tr 1 maxReviewIterations).calls.countP isIdentifyCall ≤
        tr.calls.countP isIdentifyCall + maxReviewIterations ∧
      (reviewLoop env tr 1 maxReviewIterations).calls.countP isFixCall ≤
        tr.calls.countP isFixCall + maxReviewIterations) ∧
    (∀ (env : Env) (tr : Trace),
      Label.step 12 ∈ (runStep12 env tr).calls.map Call.label) := by
  refine ⟨fun outcomes k => (loopRun_bound outcomes k).2, ?_, ?_, step12_called⟩
  · intro outcomes
    by_cases ht : (loopRun outcomes maxReviewIterations).terminated = true
    · exact ht
    · simp only [Bool.not_eq_true] at ht
      rcases (loopRun_bound outcomes maxReviewIterations).1 ht with ⟨_, hlt⟩
      omega
  · intro env tr
    exact ⟨reviewLoop_count_identify env maxReviewIterations tr 1,
      reviewLoop_count_fix env maxReviewIterations tr 1⟩

theorem mem_doCall (env : Env) (tr : Trace) (lab l : Label)
    (hP : l ∈ tr.calls.map Call.label) :
    l ∈ (doCall env tr lab).1.calls.map Call.label := by
  rw [doCall_calls]
  simp only [List.map_append, List.mem_append]
  exact Or.inl hP

theorem mem_runStep (env : Env) (l : Label) (n : ℕ) :
    StagePres (fun tr => l ∈ tr.calls.map Call.label)
      (fun r => l ∈ r.calls.map Call.label) (runStep env n) := by
  intro tr hP
  simp only [runStep, doCall_snd]
  by_cases hle : n ≤ tr.st.last_completed_step
  · simp only [if_pos hle]
    exact hP
  · simp only [if_neg hle]
    have hext := mem_doCall env tr (.step n) l hP
    by_cases hs : (env.exec (Label.step n)).success = true
    · simp only [hs, if_true]
      cases hg : gateCheck n (env.exec (Label.step n)).output with
      | some reason =>
        simp only [hg]
        simpa [mkResult, saveState, completeStep, recordOutput] using hext
      | none =>
        simp only [hg]
        simpa [saveState, completeStep, recordOutput] using hext
    · simp only [Bool.not_eq_true] at hs
      simp only [hs, Bool.false_eq_true, if_false]
      simpa [mkResult] using hext

theorem mem_runStep9 (env : Env) (l : Label) :
    StagePres (fun tr => l ∈ tr.calls.map Call.label)
      (fun r => l ∈ r.calls.map Call.label) (runStep9 env) := by
  intro tr hP
  simp only [runStep9, doCall_snd]
  by_cases hle : 9 ≤ tr.st.last_completed_step
  · simp only [if_pos hle]
    exact hP
  · simp only [if_neg hle]
    have hext := mem_doCall env tr (.step 9) l hP
    by_cases hs : (env.exec (Label.step 9)).success = true
    · simp only [hs, if_true]
      by_cases hm : hasFileMarker (env.exec (Label.step 9)).output = true
      · simp only [hm, if_true]
        simpa [saveState, completeStep, recordOutput] using hext
      · simp only [Bool.not_eq_true] at hm
        simp only [hm, Bool.false_eq_true, if_false]
        simpa [mkResult, saveState] using hext
    · simp only [Bool.not_eq_true] at hs
      simp only [hs, Bool.false_eq_true, if_false]
      simpa [mkResult] using hext

theorem mem_reviewLoop (env : Env) (l : Label) :
    ∀ (fuel : ℕ) (tr : Trace) (i : ℕ),
      l ∈ tr.calls.map Call.label →
      l ∈ (reviewLoop env tr i fuel).calls.map Call.label := by
  intro fuel
  induction fuel with
  | zero => intro tr i hP; exact hP
  | succ f ih =>
    intro tr i hP
    simp only [reviewLoop, doCall_snd]
    have h10 : l ∈ (saveState (recordOutput (doCall env tr (Label.iter 10 i)).1
        ("10_iter" ++ toString i) (env.exec (Label.iter 10 i)).output)).calls.map Call.label := by
      simpa [saveState, recordOutput] using mem_doCall env tr (.iter 10 i) l hP
    by_cases hi : issuesFound (env.exec (Label.iter 10 i)).output = true
    · simp only [hi, if_true]
      apply ih
      simpa [saveState, recordOutput] using mem_doCall env _ (.iter 11 i) l h10
    · simp only [Bool.not_eq_true] at hi
      simp only [hi, Bool.false_eq_true, if_false]
      exact h10

theorem mem_runStep12 (env : Env) (l : Label) :
    ∀ tr : Trace, l ∈ tr.calls.map Call.label →
      l ∈ (runStep12 env tr).calls.map Call.label := by
  intro tr hP
  simp only [runStep12, doCall_snd]
  have hext := mem_doCall env tr (.step 12) l hP
  by_cases hs : (env.exec (Label.step 12)).success = true
  · simp only [hs, if_true]
    simpa [mkResult, recordOutput] using hext
  · simp only [Bool.not_eq_true] at hs
    simp only [hs, Bool.false_eq_true, if_false]
    simpa [mkResult] using hext

theorem mem_after (env : Env) (l : Label) :
    ∀ tr : Trace, l ∈ tr.calls.map Call.label →
      l ∈ (afterSteps18 env tr).calls.map Call.label :=
  after_pres (mem_runStep9 env l)
    (fun tr hP => by simpa [mkResult] using hP)
    (fun tr i fuel hP => mem_reviewLoop env l fuel tr i hP)
    (mem_runStep12 env l)

theorem runStep_executes (env : Env) (n : ℕ) (tr : Trace)
    (h : ¬ n ≤ tr.st.last_completed_step) :
    match runStep env n tr with
    | .error r => Label.step n ∈ r.calls.map Call.label
    | .ok t => Label.step n ∈ t.calls.map Call.label := by
  have hnew : Label.step n ∈ (doCall env tr (Label.step n)).1.calls.map Call.label := by
    rw [doCall_calls]
    simp
  simp only [runStep, doCall_snd, if_neg h]
  by_cases hs : (env.exec (Label.step n)).success = true
  · simp only [hs, if_true]
    cases hg : gateCheck n (env.exec (Label.step n)).output with
    | some reason =>
      simp only [hg]
      simpa [mkResult, saveState, completeStep, recordOutput] using hnew
    | none =>
      simp only [hg]
      simpa [saveState, completeStep, recordOutput] using hnew
  · simp only [Bool.not_eq_true] at hs
    simp only [hs, Bool.false_eq_true, if_false]
    simpa [mkResult] using hnew

theorem runStep_skip (env : Env) (n : ℕ) (tr : Trace)
    (h : n ≤ tr.st.last_completed_step) : runStep env n tr = .ok tr := by
  simp [runStep, h]

theorem stepSeq_skip (env : Env) (n : ℕ) (chain : Trace → Except OrchResult Trace)
    (tr : Trace) (h : n ≤ tr.st.last_completed_step) :
    stepSeq (runStep env n) chain tr = chain tr := by
  unfold stepSeq
  rw [runStep_skip env n tr h]

theorem exec_then_mem (env : Env) (n : ℕ) (chain : Trace → Except OrchResult Trace)
    (tr : Trace) (hn : ¬ n ≤ tr.st.last_completed_step)
    (hrest : StagePres (fun t => Label.step n ∈ t.calls.map Call.label)
      (fun r => Label.step n ∈ r.calls.map Call.label) chain) :
    CalledLabel (Label.step n) (match stepSeq (runStep env n) chain tr with
      | .error r => r
      | .ok t => afterSteps18 env t).calls := by
  show Label.step n ∈ _
  have hexec := runStep_executes env n tr hn
  unfold stepSeq
  cases hx : runStep env n tr with
  | error r =>
    rw [hx] at hexec
    exact hexec
  | ok t =>
    rw [hx] at hexec
    exact finish_pres hrest (mem_after env _) t hexec

theorem exec_then_mem_last (env : Env) (n : ℕ) (tr : Trace)
    (hn : ¬ n ≤ tr.st.last_completed_step) :
    CalledLabel (Label.step n) (match runStep env n tr with
      | .error r => r
      | .ok t => afterSteps18 env t).calls := by
  show Label.step n ∈ _
  have hexec := runStep_executes env n tr hn
  cases hx : runStep env n tr with
  | error r =>
    rw [hx] at hexec
    exact hexec
  | ok t =>
    rw [hx] at hexec
    exact mem_after env _ t hexec

theorem runStep9_executes (env : Env) (tr : Trace)
    (h : ¬ 9 ≤ tr.st.last_completed_step) :
    match runStep9 env tr with
    | .error r => Label.step 9 ∈ r.calls.map Call.label
    | .ok t => Label.step 9 ∈ t.calls.map Call.label := by
  have hnew : Label.step 9 ∈ (doCall env tr (Label.step 9)).1.calls.map Call.label := by
    rw [doCall_calls]
    simp
  simp only [runStep9, doCall_snd, if_neg h]
  by_cases hs : (env.exec (Label.step 9)).success = true
  · simp only [hs, if_true]
    by_cases hm : hasFileMarker (env.exec (Label.step 9)).output = true
    · simp only [hm, if_true]
      simpa [saveState, completeStep, recordOutput] using hnew
    · simp only [Bool.not_eq_true] at hm
      simp only [hm, Bool.false_eq_true, if_false]
      simpa [mkResult, saveState] using hnew
  · simp only [Bool.not_eq_true] at hs
    simp only [hs, Bool.false_eq_true, if_false]
    simpa [mkResult] using hnew

theorem exec9_then_mem (env : Env) (tr : Trace)
    (h : ¬ 9 ≤ tr.st.last_completed_step) (hw : env.worktree_ok = true) :
    CalledLabel (Label.step 9) (afterSteps18 env tr).calls := by
  show Label.step 9 ∈ _
  simp only [afterSteps18, hw, if_true]
  have hexec := runStep9_executes env tr h
  cases hx : runStep9 env tr with
  | error r =>
    rw [hx] at hexec
    exact hexec
  | ok t =>
    rw [hx] at hexec
    exact mem_runStep12 env _ _ (mem_reviewLoop env _ _ _ _ hexec)

theorem resume_first_step (env : Env) (st0 : WorkflowState) (k : ℕ)
    (hchk : env.checkpoint = some st0)
    (hlcs : st0.last_completed_step = k) (hk : k ≤ 8)
    (hwt : k = 8 → env.worktree_ok = true) :
    CalledLabel (Label.step (k + 1)) (run_agentic_change_orchestrator env).calls := by
  obtain ⟨inum, lcs0, outs0, cost0, model0⟩ := st0
  simp only at hlcs
  subst hlcs
  interval_cases lcs0 <;>
    simp only [run_agentic_change_orchestrator, runSteps18, initTrace, hchk,
      Option.getD_some] <;>
    (try simp [stepSeq_skip, runStep_skip]) <;>
    first
      | (refine exec_then_mem_last env _ _ ?_
         simp)
      | (refine exec_then_mem env _ _ _ ?_ ?_
         · simp
         · repeat'
             first
               | exact mem_runStep env _ _
               | refine stagePres_seq (mem_runStep env _ _) ?_)
      | (refine exec9_then_mem env _ ?_ (hwt rfl)
         simp)

theorem lb_runStep (env : Env) (k n : ℕ) :
    StagePres (fun tr => k ≤ tr.st.last_completed_step ∧
        ∀ c ∈ tr.calls, ∀ j, c.label = Label.step j → k < j)
      (fun r => ∀ c ∈ r.calls, ∀ j, c.label = Label.step j → k < j)
      (runStep env n) := by
  intro tr hP
  simp only [runStep, doCall_snd]
  by_cases hle : n ≤ tr.st.last_completed_step
  · simp only [if_pos hle]
    exact hP
  · simp only [if_neg hle]
    have hkn : k < n := by
      have := hP.1
      omega
    have hnew : ∀ c ∈ (doCall env tr (Label.step n)).1.calls,
        ∀ j, c.label = Label.step j → k < j := by
      intro c hc j hj
      rw [doCall_calls] at hc
      rcases List.mem_append.mp hc with h' | h'
      · exact hP.2 c h' j hj
      · simp only [List.mem_singleton] at h'
        subst h'
        simp only at hj
        injection hj with hj
        omega
    by_cases hs : (env.exec (Label.step n)).success = true
    · simp only [hs, if_true]
      cases hg : gateCheck n (env.exec (Label.step n)).output with
      | some reason =>
        simp only [hg]
        intro c hc
        apply hnew
        simpa [mkResult, saveState, completeStep, recordOutput] using hc
      | none =>
        simp only [hg]
        constructor
        · simp only [saveState, completeStep, recordOutput]
          omega
        · intro c hc
          apply hnew
          simpa [saveState, completeStep, recordOutput] using hc
    · simp only [Bool.not_eq_true] at hs
      simp only [hs, Bool.false_eq_true, if_false]
      intro c hc
      apply hnew
      simpa [mkResult] using hc

theorem lb_runStep9 (env : Env) (k : ℕ) (hk : k ≤ 8) :
    StagePres (fun tr => k ≤ tr.st.last_completed_step ∧
        ∀ c ∈ tr.calls, ∀ j, c.label = Label.step j → k < j)
      (fun r => ∀ c ∈ r.calls, ∀ j, c.label = Label.step j → k < j)
      (runStep9 env) := by
  intro tr hP
  simp only [runStep9, doCall_snd]
  by_cases hle : 9 ≤ tr.st.last_completed_step
  · simp only [if_pos hle]
    exact hP
  · simp only [if_neg hle]
    have hnew : ∀ c ∈ (doCall env tr (Label.step 9)).1.calls,
        ∀ j, c.label = Label.step j → k < j := by
      intro c hc j hj
      rw [doCall_calls] at hc
      rcases List.mem_append.mp hc with h' | h'
      · exact hP.2 c h' j hj
      · simp only [List.mem_singleton] at h'
        subst h'
        simp only at hj
        injection hj with hj
        omega
    by_cases hs : (env.exec (Label.step 9)).success = true
    · simp only [hs, if_true]
      by_cases hm : hasFileMarker (env.exec (Label.step 9)).output = true
      · simp only [hm, if_true]
        constructor
        · simp only [saveState, completeStep, recordOutput]
          omega
        · intro c hc
          apply hnew
          simpa [saveState, completeStep, recordOutput] using hc
      · simp only [Bool.not_eq_true] at hm
        simp only [hm, Bool.false_eq_true, if_false]
        intro c hc
        apply hnew
        simpa [mkResult, saveState] using hc
    · simp only [Bool.not_eq_true] at hs
      simp only [hs, Bool.false_eq_true, if_false]
      intro c hc
      apply hnew
      simpa [mkResult] using hc

theorem lb_reviewLoop (env : Env) (k : ℕ) :
    ∀ (fuel : ℕ) (tr : Trace) (i : ℕ),
      (k ≤ tr.st.last_completed_step ∧
        ∀ c ∈ tr.calls, ∀ j, c.label = Label.step j → k < j) →
      (k ≤ (reviewLoop env tr i fuel).st.last_completed_step ∧
        ∀ c ∈ (reviewLoop env tr i fuel).calls, ∀ j, c.label = Label.step j → k < j) := by
  intro fuel
  induction fuel with
  | zero => intro tr i hP; exact hP
  | succ f ih =>
    intro tr i hP
    have hiter : ∀ (m : ℕ) (tr' : Trace),
        (k ≤ tr'.st.last_completed_step ∧
          ∀ c ∈ tr'.calls, ∀ j, c.label = Label.step j → k < j) →
        ∀ key out, (k ≤ (saveState (recordOutput (doCall env tr' (Label.iter m i)).1 key out)).st.last_completed_step ∧
          ∀ c ∈ (saveState (recordOutput (doCall env tr' (Label.iter m i)).1 key out)).calls,
            ∀ j, c.label = Label.step j → k < j) := by
      intro m tr' hP' key out
      constructor
      · simp only [saveState, recordOutput, doCall]
        exact hP'.1
      · intro c hc j hj
        have hc' : c ∈ (doCall env tr' (Label.iter m i)).1.calls := by
          simpa [saveState, recordOutput] using hc
        rw [doCall_calls] at hc'
        rcases List.mem_append.mp hc' with h' | h'
        · exact hP'.2 c h' j hj
        · simp only [List.mem_singleton] at h'
          subst h'
          simp at hj
    simp only [reviewLoop, doCall_snd]
    by_cases hi : issuesFound (env.exec (Label.iter 10 i)).output = true
    · simp only [hi, if_true]
      apply ih
      exact hiter 11 _ (hiter 10 tr hP _ _) _ _
    · simp only [Bool.not_eq_true] at hi
      simp only [hi, Bool.false_eq_true, if_false]
      exact hiter 10 tr hP _ _

theorem lb_runStep12 (env : Env) (k : ℕ) (hk : k ≤ 8) :
    ∀ tr : Trace,
      (k ≤ tr.st.last_completed_step ∧
        ∀ c ∈ tr.calls, ∀ j, c.label = Label.step j → k < j) →
      ∀ c ∈ (runStep12 env tr).calls, ∀ j, c.label = Label.step j → k < j := by
  intro tr hP
  have hnew : ∀ c ∈ (doCall env tr (Label.step 12)).1.calls,
      ∀ j, c.label = Label.step j → k < j := by
    intro c hc j hj
    rw [doCall_calls] at hc
    rcases List.mem_append.mp hc with h' | h'
    · exact hP.2 c h' j hj
    · simp only [List.mem_singleton] at h'
      subst h'
      simp only at hj
      injection hj with hj
      omega
  simp only [runStep12, doCall_snd]
  by_cases hs : (env.exec (Label.step 12)).success = true
  · simp only [hs, if_true]
    intro c hc
    apply hnew
    simpa [mkResult, recordOutput] using hc
  · simp only [Bool.not_eq_true] at hs
    simp only [hs, Bool.false_eq_true, if_false]
    intro c hc
    apply hnew
    simpa [mkResult] using hc

theorem resume_no_reexecution (env : Env) (st0 : WorkflowState) (k : ℕ)
    (hchk : env.checkpoint = some st0)
    (hlcs : st0.last_completed_step = k) (hk : k ≤ 8) :
    ∀ n, 1 ≤ n → n ≤ k →
      ¬ CalledLabel (Label.step n) (run_agentic_change_orchestrator env).calls := by
  intro n h1 hn hmem
  have hQ : ∀ c ∈ (run_agentic_change_orchestrator env).calls,
      ∀ j, c.label = Label.step j → k < j := by
    refine run_pres
      (P := fun tr => k ≤ tr.st.last_completed_step ∧
        ∀ c ∈ tr.calls, ∀ j, c.label = Label.step j → k < j)
      (Q := fun r => ∀ c ∈ r.calls, ∀ j, c.label = Label.step j → k < j)
      (fun m _ _ => lb_runStep env k m) (lb_runStep9 env k hk) ?_
      (fun tr i fuel h => lb_reviewLoop env k fuel tr i h) (lb_runStep12 env k hk) ?_
    · intro tr hP c hc j hj
      have hc' : c ∈ tr.calls := by simpa [mkResult] using hc
      exact hP.2 c hc' j hj
    · constructor
      · simp [initTrace, hchk, hlcs]
      · intro c hc
        simp [initTrace] at hc
  rcases List.mem_map.mp hmem with ⟨c, hcmem, hlab⟩
  have := hQ c hcmem n hlab
  omega

theorem buildContext_mem (env : Env) (st : WorkflowState) (pr : String × String)
    (h : pr ∈ st.step_outputs) :
    (("step" ++ pr.1 ++ "_output" : String), pr.2) ∈ buildContext env st := by
  simp only [buildContext, List.mem_append]
  right
  exact List.mem_map.mpr ⟨pr, h, rfl⟩

theorem ctx_doCall (env : Env) (tr : Trace) (lab : Label)
    (outs0 : List (String × String))
    (h1 : ∀ pr ∈ outs0, pr ∈ tr.st.step_outputs)
    (h2 : ∀ c ∈ tr.calls, ∀ pr ∈ outs0,
      (("step" ++ pr.1 ++ "_output" : String), pr.2) ∈ c.ctx) :
    ∀ c ∈ (doCall env tr lab).1.calls, ∀ pr ∈ outs0,
      (("step" ++ pr.1 ++ "_output" : String), pr.2) ∈ c.ctx := by
  intro c hc pr hpr
  rw [doCall_calls] at hc
  rcases List.mem_append.mp hc with h' | h'
  · exact h2 c h' pr hpr
  · simp only [List.mem_singleton] at h'
    subst h'
    exact buildContext_mem env tr.st pr (h1 pr hpr)

theorem ctx_runStep (env : Env) (outs0 : List (String × String)) (n : ℕ) :
    StagePres
      (fun tr => (∀ pr ∈ outs0, pr ∈ tr.st.step_outputs) ∧
        ∀ c ∈ tr.calls, ∀ pr ∈ outs0,
          (("step" ++ pr.1 ++ "_output" : String), pr.2) ∈ c.ctx)
      (fun r => ∀ c ∈ r.calls, ∀ pr ∈ outs0,
        (("step" ++ pr.1 ++ "_output" : String), pr.2) ∈ c.ctx)
      (runStep env n) := by
  intro tr hP
  simp only [runStep, doCall_snd]
  by_cases hle : n ≤ tr.st.last_completed_step
  · simp only [if_pos hle]
    exact hP
  · simp only [if_neg hle]
    have hnew := ctx_doCall env tr (.step n) outs0 hP.1 hP.2
    by_cases hs : (env.exec (Label.step n)).success = true
    · simp only [hs, if_true]
      cases hg : gateCheck n (env.exec (Label.step n)).output with
      | some reason =>
        simp only [hg]
        intro c hc
        apply hnew
        simpa [mkResult, saveState, completeStep, recordOutput] using hc
      | none =>
        simp only [hg]
        constructor
        · intro pr hpr
          simp only [saveState, completeStep, recordOutput, doCall, List.mem_append]
          exact Or.inl (hP.1 pr hpr)
        · intro c hc
          apply hnew
          simpa [saveState, completeStep, recordOutput] using hc
    · simp only [Bool.not_eq_true] at hs
      simp only [hs, Bool.false_eq_true, if_false]
      intro c hc
      apply hnew
      simpa [mkResult] using hc

theorem ctx_runStep9 (env : Env) (outs0 : List (String × String)) :
    StagePres
      (fun tr => (∀ pr ∈ outs0, pr ∈ tr.st.step_outputs) ∧
        ∀ c ∈ tr.calls, ∀ pr ∈ outs0,
          (("step" ++ pr.1 ++ "_output" : String), pr.2) ∈ c.ctx)
      (fun r => ∀ c ∈ r.calls, ∀ pr ∈ outs0,
        (("step" ++ pr.1 ++ "_output" : String), pr.2) ∈ c.ctx)
      (runStep9 env) := by
  intro tr hP
  simp only [runStep9, doCall_snd]
  by_cases hle : 9 ≤ tr.st.last_completed_step
  · simp only [if_pos hle]
    exact hP
  · simp only [if_neg hle]
    have hnew := ctx_doCall env tr (.step 9) outs0 hP.1 hP.2
    by_cases hs : (env.exec (Label.step 9)).success = true
    · simp only [hs, if_true]
      by_cases hm : hasFileMarker (env.exec (Label.step 9)).output = true
      · simp only [hm, if_true]
        constructor
        · intro pr hpr
          simp only [saveState, completeStep, recordOutput, doCall, List.mem_append]
          exact Or.inl (hP.1 pr hpr)
        · intro c hc
          apply hnew
          simpa [saveState, completeStep, recordOutput] using hc
      · simp only [Bool.not_eq_true] at hm
        simp only [hm, Bool.false_eq_true, if_false]
        intro c hc
        apply hnew
        simpa [mkResult, saveState] using hc
    · simp only [Bool.not_eq_true] at hs
      simp only [hs, Bool.false_eq_true, if_false]
      intro c hc
      apply hnew
      simpa [mkResult] using hc

theorem ctx_reviewLoop (env : Env) (outs0 : List (String × String)) :
    ∀ (fuel : ℕ) (tr : Trace) (i : ℕ),
      ((∀ pr ∈ outs0, pr ∈ tr.st.step_outputs) ∧
        ∀ c ∈ tr.calls, ∀ pr ∈ outs0,
          (("step" ++ pr.1 ++ "_output" : String), pr.2) ∈ c.ctx) →
      ((∀ pr ∈ outs0, pr ∈ (reviewLoop env tr i fuel).st.step_outputs) ∧
        ∀ c ∈ (reviewLoop env tr i fuel).calls, ∀ pr ∈ outs0,
          (("step" ++ pr.1 ++ "_output" : String), pr.2) ∈ c.ctx) := by
  intro fuel
  induction fuel with
  | zero => intro tr i hP; exact hP
  | succ f ih =>
    intro tr i hP
    have hiter : ∀ (m : ℕ) (tr' : Trace) (key out : String),
        ((∀ pr ∈ outs0, pr ∈ tr'.st.step_outputs) ∧
          ∀ c ∈ tr'.calls, ∀ pr ∈ outs0,
            (("step" ++ pr.1 ++ "_output" : String), pr.2) ∈ c.ctx) →
        ((∀ pr ∈ outs0,
            pr ∈ (saveState (recordOutput (doCall env tr' (Label.iter m i)).1 key out)).st.step_outputs) ∧
          ∀ c ∈ (saveState (recordOutput (doCall env tr' (Label.iter m i)).1 key out)).calls,
            ∀ pr ∈ outs0, (("step" ++ pr.1 ++ "_output" : String), pr.2) ∈ c.ctx) := by
      intro m tr' key out hP'
      constructor
      · intro pr hpr
        simp only [saveState, recordOutput, doCall, List.mem_append]
        exact Or.inl (hP'.1 pr hpr)
      · intro c hc
        apply ctx_doCall env tr' (.iter m i) outs0 hP'.1 hP'.2
        simpa [saveState, recordOutput] using hc
    simp only [reviewLoop, doCall_snd]
    by_cases hi : issuesFound (env.exec (Label.iter 10 i)).output = true
    · simp only [hi, if_true]
      apply ih
      exact hiter 11 _ _ _ (hiter 10 tr _ _ hP)
    · simp only [Bool.not_eq_true] at hi
      simp only [hi, Bool.false_eq_true, if_false]
      exact hiter 10 tr _ _ hP

theorem ctx_runStep12 (env : Env) (outs0 : List (String × String)) :
    ∀ tr : Trace,
      ((∀ pr ∈ outs0, pr ∈ tr.st.step_outputs) ∧
        ∀ c ∈ tr.calls, ∀ pr ∈ outs0,
          (("step" ++ pr.1 ++ "_output" : String), pr.2) ∈ c.ctx) →
      ∀ c ∈ (runStep12 env tr).calls, ∀ pr ∈ outs0,
        (("step" ++ pr.1 ++ "_output" : String), pr.2) ∈ c.ctx := by
  intro tr hP
  have hnew := ctx_doCall env tr (.step 12) outs0 hP.1 hP.2
  simp only [runStep12, doCall_snd]
  by_cases hs : (env.exec (Label.step 12)).success = true
  · simp only [hs, if_true]
    intro c hc
    apply hnew
    simpa [mkResult, recordOutput] using hc
  · simp only [Bool.not_eq_true] at hs
    simp only [hs, Bool.false_eq_true, if_false]
    intro c hc
    apply hnew
    simpa [mkResult] using hc

theorem resume_reuses_outputs (env : Env) (st0 : WorkflowState)
    (hchk : env.checkpoint = some st0) :
    ∀ c ∈ (run_agentic_change_orchestrator env).calls, ∀ pr ∈ st0.step_outputs,
      (("step" ++ pr.1 ++ "_output" : String), pr.2) ∈ c.ctx := by
  refine run_pres
    (P := fun tr => (∀ pr ∈ st0.step_outputs, pr ∈ tr.st.step_outputs) ∧
      ∀ c ∈ tr.calls, ∀ pr ∈ st0.step_outputs,
        (("step" ++ pr.1 ++ "_output" : String), pr.2) ∈ c.ctx)
    (Q := fun r => ∀ c ∈ r.calls, ∀ pr ∈ st0.step_outputs,
      (("step" ++ pr.1 ++ "_output" : String), pr.2) ∈ c.ctx)
    (fun m _ _ => ctx_runStep env _ m) (ctx_runStep9 env _) ?_
    (fun tr i fuel h => ctx_reviewLoop env _ fuel tr i h) (ctx_runStep12 env _) ?_
  · intro tr hP c hc
    apply hP.2
    simpa [mkResult] using hc
  · constructor
    · intro pr hpr
      simp [initTrace, hchk]
      exact hpr
    · intro c hc
      simp [initTrace] at hc

/-- C4 (amended): re-invoking the orchestrator on a checkpoint with
`last_completed_step = k` (k ≤ 8) executes no step with index in 1..k —
their labels never appear among the executed-call labels — and supplies the
checkpoint's stored outputs (as `step<i>_output` entries) in the context of
every executed call; execution resumes at step k+1 provided the run reaches
it — unconditionally for k ≤ 7, and for k = 8 only when worktree creation
succeeds (a failing worktree stops the run before the step-9 call, refuting
the original unconditional resume-at-k+1 claim). -/
theorem resume_skips_completed_steps (env : Env) (st0 : WorkflowState) (k : ℕ)
    (hchk : env.checkpoint = some st0)
    (hlcs : st0.last_completed_step = k) (hk : k ≤ 8)
    (hwt : k = 8 → env.worktree_ok = true) :
    (∀ n, 1 ≤ n → n ≤ k →
      ¬ CalledLabel (Label.step n) (run_agentic_change_orchestrator env).calls) ∧
    CalledLabel (Label.step (k + 1)) (run_agentic_change_orchestrator env).calls ∧
    (∀ c ∈ (run_agentic_change_orchestrator env).calls, ∀ pr ∈ st0.step_outputs,
      (("step" ++ pr.1 ++ "_output" : String), pr.2) ∈ c.ctx) :=
  ⟨resume_no_reexecution env st0 k hchk hlcs hk,
   resume_first_step env st0 k hchk hlcs hk hwt,
   resume_reuses_outputs env st0 hchk⟩

/-- C4 witness: resuming at step 4 skips steps 1–4, runs step 5 next, and
passes the stored outputs to every later step's context. -/
theorem resume_skips_completed_steps_witness :
    (∀ n, 1 ≤ n → n ≤ 4 →
      ¬ CalledLabel (Label.step n) (run_agentic_change_orchestrator envC4).calls) ∧
    CalledLabel (Label.step 5) (run_agentic_change_orchestrator envC4).calls ∧
    (∀ c ∈ (run_agentic_change_orchestrator envC4).calls,
      ∀ pr ∈ [("1", "out1"), ("2", "out2"), ("3", "out3"), ("4", "out4")],
        (("step" ++ pr.1 ++ "_output" : String), pr.2) ∈ c.ctx) :=
  resume_skips_completed_steps envC4
    ⟨3, 4, [("1", "out1"), ("2", "out2"), ("3", "out3"), ("4", "out4")], 1, "gpt-3.5"⟩
    4 rfl rfl (by decide) (fun _ => rfl)

/-- C4 counterexample: a checkpoint with `last_completed_step = 8` whose
worktree creation fails — the run never makes a `step9` call, refuting the
original claim that a resumed run always continues at step k+1. -/
theorem resume_step9_counterexample :
    envC4cx.checkpoint = some ⟨4, 8, [("1", "o1")], 1, "gpt-4"⟩ ∧
    envC4cx.worktree_ok = false ∧
    ¬ CalledLabel (Label.step 9) (run_agentic_change_orchestrator envC4cx).calls :=
  ⟨rfl, rfl, by show Label.step 9 ∉ _ ; decide⟩

theorem notmem_doCall (env : Env) (tr : Trace) (lab l : Label)
    (hne : lab ≠ l) (hP : l ∉ tr.calls.map Call.label) :
    l ∉ (doCall env tr lab).1.calls.map Call.label := by
  rw [doCall_calls]
  simp only [List.map_append, List.mem_append, List.map_cons, List.map_nil]
  rintro (h | h)
  · exact hP h
  · simp only [List.mem_singleton] at h
    exact hne h.symm

theorem ne_runStep {G : OrchResult → Prop} (env : Env) (gn m : ℕ) (hmn : m ≠ gn) :
    StagePres (fun tr => Label.step gn ∉ tr.calls.map Call.label)
      (fun r => G r ∨ Label.step gn ∉ r.calls.map Call.label)
      (runStep env m) := by
  intro tr hP
  simp only [runStep, doCall_snd]
  by_cases hle : m ≤ tr.st.last_completed_step
  · simp only [if_pos hle]
    exact hP
  · simp only [if_neg hle]
    have hne : Label.step m ≠ Label.step gn := fun h => hmn (Label.step.inj h)
    have hext := notmem_doCall env tr (.step m) (.step gn) hne hP
    by_cases hs : (env.exec (Label.step m)).success = true
    · simp only [hs, if_true]
      cases hg : gateCheck m (env.exec (Label.step m)).output with
      | some reason =>
        simp only [hg]
        refine Or.inr ?_
        simpa [mkResult, saveState, completeStep, recordOutput] using hext
      | none =>
        simp only [hg]
        simpa [saveState, completeStep, recordOutput] using hext
    · simp only [Bool.not_eq_true] at hs
      simp only [hs, Bool.false_eq_true, if_false]
      refine Or.inr ?_
      simpa [mkResult] using hext

theorem gate_runStep (env : Env) (gn : ℕ) (reason msg : String)
    (hmsg : ("Stopped at step " ++ toString gn ++ ": " ++ reason) = msg)
    (hs : (env.exec (Label.step gn)).success = true)
    (hg : gateCheck gn (env.exec (Label.step gn)).output = some reason) :
    StagePres (fun tr => Label.step gn ∉ tr.calls.map Call.label)
      (fun r => (r.success = false ∧ r.message = msg ∧ r.persisted.isSome = true) ∨
        Label.step gn ∉ r.calls.map Call.label)
      (runStep env gn) := by
  intro tr hP
  simp only [runStep, doCall_snd]
  by_cases hle : gn ≤ tr.st.last_completed_step
  · simp only [if_pos hle]
    exact hP
  · simp only [if_neg hle, hs, if_true, hg]
    exact Or.inl ⟨rfl, hmsg, by simp [mkResult, saveState]⟩

theorem ne_runStep9 {G : OrchResult → Prop} (env : Env) (gn : ℕ) (hn : gn ≠ 9) :
    StagePres (fun tr => Label.step gn ∉ tr.calls.map Call.label)
      (fun r => G r ∨ Label.step gn ∉ r.calls.map Call.label)
      (runStep9 env) := by
  intro tr hP
  simp only [runStep9, doCall_snd]
  by_cases hle : 9 ≤ tr.st.last_completed_step
  · simp only [if_pos hle]
    exact hP
  · simp only [if_neg hle]
    have hne : Label.step 9 ≠ Label.step gn := fun h => hn (Label.step.inj h).symm
    have hext := notmem_doCall env tr (.step 9) (.step gn) hne hP
    by_cases hs : (env.exec (Label.step 9)).success = true
    · simp only [hs, if_true]
      by_cases hm : hasFileMarker (env.exec (Label.step 9)).output = true
      · simp only [hm, if_true]
        simpa [saveState, completeStep, recordOutput] using hext
      · simp only [Bool.not_eq_true] at hm
        simp only [hm, Bool.false_eq_true, if_false]
        refine Or.inr ?_
        simpa [mkResult, saveState] using hext
    · simp only [Bool.not_eq_true] at hs
      simp only [hs, Bool.false_eq_true, if_false]
      refine Or.inr ?_
      simpa [mkResult] using hext

theorem ne_reviewLoop (env : Env) (gn : ℕ) :
    ∀ (fuel : ℕ) (tr : Trace) (i : ℕ),
      Label.step gn ∉ tr.calls.map Call.label →
      Label.step gn ∉ (reviewLoop env tr i fuel).calls.map Call.label := by
  intro fuel
  induction fuel with
  | zero => intro tr i hP; exact hP
  | succ f ih =>
    intro tr i hP
    simp only [reviewLoop, doCall_snd]
    have h10 : Label.step gn ∉ (saveState (recordOutput (doCall env tr (Label.iter 10 i)).1
        ("10_iter" ++ toString i) (env.exec (Label.iter 10 i)).output)).calls.map Call.label := by
      simpa [saveState, recordOutput] using
        notmem_doCall env tr (.iter 10 i) (.step gn) (fun h => Label.noConfusion h) hP
    by_cases hi : issuesFound (env.exec (Label.iter 10 i)).output = true
    · simp only [hi, if_true]
      apply ih
      simpa [saveState, recordOutput] using
        notmem_doCall env _ (.iter 11 i) (.step gn) (fun h => Label.noConfusion h) h10
    · simp only [Bool.not_eq_true] at hi
      simp only [hi, Bool.false_eq_true, if_false]
      exact h10

theorem ne_runStep12 {G : OrchResult → Prop} (env : Env) (gn : ℕ) (hn : gn ≠ 12) :
    ∀ tr : Trace, Label.step gn ∉ tr.calls.map Call.label →
      G (runStep12 env tr) ∨ Label.step gn ∉ (runStep12 env tr).calls.map Call.label := by
  intro tr hP
  refine Or.inr ?_
  have hne : Label.step 12 ≠ Label.step gn := fun h => hn (Label.step.inj h).symm
  have hext := notmem_doCall env tr (.step 12) (.step gn) hne hP
  simp only [runStep12, doCall_snd]
  by_cases hs : (env.exec (Label.step 12)).success = true
  · simp only [hs, if_true]
    simpa [mkResult, recordOutput] using hext
  · simp only [Bool.not_eq_true] at hs
    simp only [hs, Bool.false_eq_true, if_false]
    simpa [mkResult] using hext

theorem gate_run (env : Env) (gn : ℕ) (reason msg : String) (h8 : gn ≤ 8)
    (hmsg : ("Stopped at step " ++ toString gn ++ ": " ++ reason) = msg)
    (hs : (env.exec (Label.step gn)).success = true)
    (hg : gateCheck gn (env.exec (Label.step gn)).output = some reason)
    (hc : CalledLabel (Label.step gn) (run_agentic_change_orchestrator env).calls) :
    (run_agentic_change_orchestrator env).success = false ∧
    (run_agentic_change_orchestrator env).message = msg ∧
    (run_agentic_change_orchestrator env).persisted.isSome = true := by
  have hQ : ((run_agentic_change_orchestrator env).success = false ∧
      (run_agentic_change_orchestrator env).message = msg ∧
      (run_agentic_change_orchestrator env).persisted.isSome = true) ∨
      Label.step gn ∉ (run_agentic_change_orchestrator env).calls.map Call.label := by
    refine run_pres (P := fun tr => Label.step gn ∉ tr.calls.map Call.label)
      (Q := fun r => (r.success = false ∧ r.message = msg ∧ r.persisted.isSome = true) ∨
        Label.step gn ∉ r.calls.map Call.label)
      ?_ ?_ ?_ ?_ ?_ ?_
    · intro m hm1 hm8
      by_cases hmn : m = gn
      · subst hmn
        exact gate_runStep env m reason msg hmsg hs hg
      · exact ne_runStep env gn m hmn
    · exact ne_runStep9 env gn (by omega)
    · intro tr hP
      refine Or.inr ?_
      simpa [mkResult] using hP
    · intro tr i fuel hP
      exact ne_reviewLoop env gn fuel tr i hP
    · exact ne_runStep12
        (G := fun r => r.success = false ∧ r.message = msg ∧ r.persisted.isSome = true)
        env gn (by omega)
    · simp [initTrace]
  rcases hQ with h | h
  · exact h
  · exact absurd hc h

/-- C3: in every run — fresh or resumed — in which a hard-stop gate step
actually executes, succeeds, and its output carries that step's stop marker,
the workflow returns `success = false` with the exact step-and-reason message
("Stopped at step 1: Issue is a duplicate" for the duplicate marker on step 1,
"Stopped at step 7: Architectural decision needed" for the architectural
marker on step 7), and the persisted checkpoint is not cleared. -/
theorem hard_stop_gates :
    (∀ env : Env,
      (env.exec (Label.step 1)).success = true →
      containsMarker (env.exec (Label.step 1)).output duplicateMarker = true →
      CalledLabel (Label.step 1) (run_agentic_change_orchestrator env).calls →
      (run_agentic_change_orchestrator env).success = false ∧
      (run_agentic_change_orchestrator env).message =
        "Stopped at step 1: Issue is a duplicate" ∧
      (run_agentic_change_orchestrator env).persisted.isSome = true) ∧
    (∀ env : Env,
      (env.exec (Label.step 7)).success = true →
      containsMarker (env.exec (Label.step 7)).output architecturalMarker = true →
      CalledLabel (Label.step 7) (run_agentic_change_orchestrator env).calls →
      (run_agentic_change_orchestrator env).success = false ∧
      (run_agentic_change_orchestrator env).message =
        "Stopped at step 7: Architectural decision needed" ∧
      (run_agentic_change_orchestrator env).persisted.isSome = true) := by
  constructor
  · intro env hs hm hc
    refine gate_run env 1 "Issue is a duplicate" _ (by omega) (by decide) hs ?_ hc
    simp [gateCheck, hm]
  · intro env hs hm hc
    refine gate_run env 7 "Architectural decision needed" _ (by omega) (by decide) hs ?_ hc
    simp [gateCheck, hm]

/-- C3 witness: the step-1 hard stop on a fresh duplicate issue
(`test_orchestrator_hard_stop_early`) and the step-7 hard stop on a fresh run
whose steps 1–6 succeed (`test_step7_stop_with_stop_condition_marker`). -/
theorem hard_stop_gates_witness :
    ((run_agentic_change_orchestrator envC3a).success = false ∧
      (run_agentic_change_orchestrator envC3a).message =
        "Stopped at step 1: Issue is a duplicate" ∧
      (run_agentic_change_orchestrator envC3a).persisted.isSome = true) ∧
    ((run_agentic_change_orchestrator envC3b).success = false ∧
      (run_agentic_change_orchestrator envC3b).message =
        "Stopped at step 7: Architectural decision needed" ∧
      (run_agentic_change_orchestrator envC3b).persisted.isSome = true) :=
  ⟨hard_stop_gates.1 envC3a (by decide) (by decide)
      (by show Label.step 1 ∈ _ ; decide),
   hard_stop_gates.2 envC3b (by decide) (by decide)
      (by show Label.step 7 ∈ _ ; decide)⟩

theorem stepSeq_ok {f g : Trace → Except OrchResult Trace}
    (hf : ∀ tr, ∃ t, f tr = .ok t) (hg : ∀ tr, ∃ t, g tr = .ok t) :
    ∀ tr, ∃ t, stepSeq f g tr = .ok t := by
  intro tr
  rcases hf tr with ⟨t1, h1⟩
  rcases hg t1 with ⟨t2, h2⟩
  exact ⟨t2, by simp [stepSeq, h1, h2]⟩

theorem runStep_ok_of (env : Env) (n : ℕ) (tr : Trace)
    (hs : (env.exec (Label.step n)).success = true)
    (hg : gateCheck n (env.exec (Label.step n)).output = none) :
    ∃ t, runStep env n tr = .ok t := by
  by_cases hle : n ≤ tr.st.last_completed_step
  · simp only [runStep, if_pos hle]
    exact ⟨tr, rfl⟩
  · simp only [runStep, doCall_snd, if_neg hle, hs, if_true, hg]
    exact ⟨_, rfl⟩

theorem runSteps18_ok (env : Env)
    (hs : ∀ n, 1 ≤ n → n ≤ 8 → (env.exec (Label.step n)).success = true)
    (hm1 : containsMarker (env.exec (Label.step 1)).output duplicateMarker = false)
    (hm7 : containsMarker (env.exec (Label.step 7)).output architecturalMarker = false) :
    ∀ tr, ∃ t, runSteps18 env tr = .ok t := by
  have hgate : ∀ n, 1 ≤ n → n ≤ 8 →
      gateCheck n (env.exec (Label.step n)).output = none := by
    intro n h1 h8
    by_cases hn1 : n = 1
    · subst hn1
      simp [gateCheck, hm1]
    · by_cases hn7 : n = 7
      · subst hn7
        simp [gateCheck, hm7]
      · simp [gateCheck, hn1, hn7]
  unfold runSteps18
  refine stepSeq_ok (fun tr => runStep_ok_of env 1 tr (hs 1 ?_ ?_) (hgate 1 ?_ ?_))
    (stepSeq_ok (fun tr => runStep_ok_of env 2 tr (hs 2 ?_ ?_) (hgate 2 ?_ ?_))
      (stepSeq_ok (fun tr => runStep_ok_of env 3 tr (hs 3 ?_ ?_) (hgate 3 ?_ ?_))
        (stepSeq_ok (fun tr => runStep_ok_of env 4 tr (hs 4 ?_ ?_) (hgate 4 ?_ ?_))
          (stepSeq_ok (fun tr => runStep_ok_of env 5 tr (hs 5 ?_ ?_) (hgate 5 ?_ ?_))
            (stepSeq_ok (fun tr => runStep_ok_of env 6 tr (hs 6 ?_ ?_) (hgate 6 ?_ ?_))
              (stepSeq_ok (fun tr => runStep_ok_of env 7 tr (hs 7 ?_ ?_) (hgate 7 ?_ ?_))
                (fun tr => runStep_ok_of env 8 tr (hs 8 ?_ ?_) (hgate 8 ?_ ?_)))))))) <;>
    omega

/-- C7: (a) in every run with failed worktree creation no `step9` executor
call ever occurs, and (b) every run — fresh or resumed — that reaches the
worktree stage (steps 1–8 succeed or are skipped, with no hard-stop marker
raised) and whose worktree creation fails stops with `success = false` and
the message "Failed to create worktree". -/
theorem worktree_failure :
    (∀ env : Env, env.worktree_ok = false →
      Label.step 9 ∉ (run_agentic_change_orchestrator env).calls.map Call.label) ∧
    (∀ env : Env,
      (∀ n, 1 ≤ n → n ≤ 8 → (env.exec (Label.step n)).success = true) →
      containsMarker (env.exec (Label.step 1)).output duplicateMarker = false →
      containsMarker (env.exec (Label.step 7)).output architecturalMarker = false →
      env.worktree_ok = false →
      (run_agentic_change_orchestrator env).success = false ∧
      (run_agentic_change_orchestrator env).message = "Failed to create worktree") := by
  constructor
  · intro env hw hmem
    have hinit : ∀ c ∈ (initTrace env).calls, ∃ j, c.label = Label.step j ∧ j ≤ 8 := by
      intro c hc
      simp [initTrace] at hc
    have h1 := calls_ub_runSteps18 env (initTrace env) hinit
    unfold run_agentic_change_orchestrator at hmem
    cases hc : runSteps18 env (initTrace env) with
    | error r =>
      rw [hc] at h1 hmem
      rcases List.mem_map.mp hmem with ⟨c, hcmem, hlab⟩
      rcases h1 c hcmem with ⟨j, hj, hjle⟩
      rw [hj] at hlab
      injection hlab with hlab
      omega
    | ok tr =>
      rw [hc] at h1 hmem
      simp only [afterSteps18, hw, Bool.false_eq_true, if_false] at hmem
      rcases List.mem_map.mp hmem with ⟨c, hcmem, hlab⟩
      have hcmem' : c ∈ tr.calls := by simpa [mkResult] using hcmem
      rcases h1 c hcmem' with ⟨j, hj, hjle⟩
      rw [hj] at hlab
      injection hlab with hlab
      omega
  · intro env hsteps hm1 hm7 hw
    rcases runSteps18_ok env hsteps hm1 hm7 (initTrace env) with ⟨tr, htr⟩
    unfold run_agentic_change_orchestrator
    rw [htr]
    simp [afterSteps18, hw, mkResult]

/-- C7 witness: the fresh worktree-failure run of
`test_orchestrator_worktree_failure`: every step succeeds, worktree creation
fails, the run stops with the worktree message and no `step9` call occurs. -/
theorem worktree_failure_witness :
    Label.step 9 ∉ (run_agentic_change_orchestrator envC7).calls.map Call.label ∧
    ((run_agentic_change_orchestrator envC7).success = false ∧
      (run_agentic_change_orchestrator envC7).message = "Failed to create worktree") :=
  ⟨worktree_failure.1 envC7 rfl,
   worktree_failure.2 envC7 (fun n h1 h8 => rfl) (by decide) (by decide) rfl⟩
